import Mathlib

/-!
Verification of the git-analysis ingestion and aggregation engine.

This file gives a shallow embedding, in Lean 4, of the parts of the
repository relevant to the checked claims: the bootstrap classifier
(`src/git_analysis/models.py` and the independent reimplementation in
`skills/git-analysis-spike-investigation/scripts/explain_spikes.py`),
the identity matcher (`src/git_analysis/identity.py`), the path
classifier (`src/git_analysis/analysis_paths.py`), the weekly bucketing
helper and the commit stream parser (`src/git_analysis/analysis_repo.py`),
the rollup aggregator (`src/git_analysis/analysis_aggregate.py`) and the
repository deduplication step (`src/git_analysis/analysis_selection.py`).

Modelling conventions:
* Python `int` is embedded as `Int`; the single floating-point value in
  the code (`addition_ratio`, compared against a ratio of two ints) is
  embedded as `ℚ` with exact division.  All concrete inputs appearing in
  theorems below keep the float and rational comparisons in agreement
  (the ratios involved are 0, 1/2 and 1, far from the thresholds).
* Python `dict` is embedded as an association list `List (String × V)`;
  a Python dict never holds a duplicate key, which theorems record as a
  `Nodup` hypothesis where the value of a lookup matters.
* Python string case mapping (`lower`, `casefold`) is embedded as ASCII
  lowercasing, and `int(...)` parsing as ASCII sign-and-digits parsing;
  all strings appearing in the claims are ASCII.
-/

namespace GitAnalysis

/-! ## Python string primitives

Implemented structurally over `List Char` so that every function reduces
inside the Lean kernel (Lean's own `String.splitOn` and friends are
defined by well-founded recursion and do not). -/

/-- `startsWithL s pre`: does the character list `s` start with `pre`? -/
def startsWithL : List Char → List Char → Bool
  | _, [] => true
  | [], _ :: _ => false
  | c :: cs, p :: ps => c = p && startsWithL cs ps

/-- Substring containment on character lists (Python `needle in hay`). -/
def containsL (hay needle : List Char) : Bool :=
  startsWithL hay needle ||
    match hay with
    | [] => false
    | _ :: t => containsL t needle

/-- Worker for `splitSepL`, structurally recursive on a fuel bound so
that it reduces in the kernel; each step consumes at least one character,
so fuel `cs.length` never runs out. -/
def splitSepFuel (sep : List Char) : Nat → List Char → List (List Char)
  | _, [] => [[]]
  | 0, cs => [cs]
  | fuel + 1, c :: rest =>
    if sep ≠ [] && startsWithL (c :: rest) sep then
      [] :: splitSepFuel sep fuel ((c :: rest).drop sep.length)
    else
      match splitSepFuel sep fuel rest with
      | [] => [[c]]
      | hd :: tl => (c :: hd) :: tl

/-- Split a character list on every occurrence of a (nonempty) separator,
leftmost-first and non-overlapping, like Python `s.split(sep)`. -/
def splitSepL (sep cs : List Char) : List (List Char) :=
  splitSepFuel sep cs.length cs

/-- Join character lists with a separator (Python `sep.join(parts)`). -/
def joinSepL (sep : List Char) : List (List Char) → List Char
  | [] => []
  | [p] => p
  | p :: rest => p ++ sep ++ joinSepL sep rest

def strStartsWith (s pre : String) : Bool := startsWithL s.data pre.data

def strEndsWith (s suf : String) : Bool := startsWithL s.data.reverse suf.data.reverse

def strContains (s sub : String) : Bool := containsL s.data sub.data

/-- Characters stripped by Python `str.strip()` (ASCII whitespace). -/
def pyWhite (c : Char) : Bool :=
  c = ' ' || c = '\t' || c = '\n' || c = '\x0d' || c = '\x0b' || c = '\x0c'

/-- Python `s.strip()` restricted to ASCII whitespace. -/
def pyStrip (s : String) : String :=
  ⟨(s.data.dropWhile pyWhite).reverse.dropWhile pyWhite |>.reverse⟩

/-- Python `s.lstrip(chars)`: drop leading characters belonging to `cs`. -/
def pyLStrip (s : String) (cs : List Char) : String :=
  ⟨s.data.dropWhile (fun c => cs.contains c)⟩

/-- Python `s.rstrip(chars)`: drop trailing characters belonging to `cs`. -/
def pyRStrip (s : String) (cs : List Char) : String :=
  ⟨(s.data.reverse.dropWhile (fun c => cs.contains c)).reverse⟩

/-- ASCII lowercasing, embedding Python `str.lower()`/`str.casefold()`
on the ASCII strings these claims are about. -/
def asciiLower (s : String) : String :=
  ⟨s.data.map Char.toLower⟩

/-- Replace every occurrence of one character by another
(Python `s.replace(a, b)` for single characters). -/
def replaceChar (a b : Char) (s : String) : String :=
  ⟨s.data.map (fun c => if c = a then b else c)⟩

/-- Delete every occurrence of a character (Python `s.replace(a, "")`). -/
def dropChar (a : Char) (s : String) : String :=
  ⟨s.data.filter (fun c => c ≠ a)⟩

/-- Python `s.split(sep)` (no maxsplit). -/
def pySplit (s : String) (sep : String) : List String :=
  (splitSepL sep.data s.data).map (fun cs => ⟨cs⟩)

/-- Python `s.split(sep, maxsplit)` for a nonempty separator: at most
`maxsplit` splits, the remainder (with separators) kept in the last part. -/
def pySplitN (s : String) (sep : String) (maxsplit : Nat) : List String :=
  let parts := splitSepL sep.data s.data
  if parts.length ≤ maxsplit + 1 then parts.map (fun cs => ⟨cs⟩)
  else (parts.take maxsplit).map (fun cs => (⟨cs⟩ : String)) ++
    [⟨joinSepL sep.data (parts.drop maxsplit)⟩]

/-- Python `s.rsplit(sep, 1)`. -/
def pyRSplit1 (s : String) (sep : String) : List String :=
  let parts := splitSepL sep.data s.data
  if parts.length ≤ 1 then parts.map (fun cs => ⟨cs⟩)
  else [⟨joinSepL sep.data parts.dropLast⟩, ⟨parts.getLastD []⟩]

/-- Python `int(s)` restricted to an optional ASCII sign and decimal
digits, with surrounding whitespace allowed (underscore digit grouping
and non-ASCII digits are not modelled; no claim input uses them). -/
def pyInt? (s : String) : Option Int :=
  let t := pyStrip s
  let core := t.data
  let (sign, ds) : Int × List Char :=
    match core with
    | '+' :: rest => (1, rest)
    | '-' :: rest => (-1, rest)
    | rest => (1, rest)
  if ds = [] then none
  else if ds.all Char.isDigit then
    some (sign * (ds.foldl (fun n c => n * 10 + (c.toNat - '0'.toNat)) (0 : Nat) : Nat))
  else none

/-! ## Bootstrap classifier

`BootstrapConfig.is_bootstrap` is the classifier in
`src/git_analysis/models.py` (the one the commit stream parser calls);
`BootstrapCfg.is_bootstrap` is the independent reimplementation in
`skills/git-analysis-spike-investigation/scripts/explain_spikes.py`,
which carries the comment "Keep in sync with
`src/git_analysis/models.py:BootstrapConfig.is_bootstrap`". -/

structure BootstrapConfig where
  changed_threshold : Int := 50000
  files_threshold : Int := 200
  addition_ratio : ℚ := 9 / 10
deriving DecidableEq

/-- `models.py` `BootstrapConfig.is_bootstrap`: requires the size
threshold, the file threshold, and an insertion-dominance ratio. -/
def BootstrapConfig.is_bootstrap (cfg : BootstrapConfig)
    (insertions deletions files_touched : Int) : Bool :=
  let changed := insertions + deletions
  if changed < cfg.changed_threshold then false
  else if files_touched < cfg.files_threshold then false
  else if changed ≤ 0 then false
  else decide ((insertions : ℚ) / (changed : ℚ) ≥ cfg.addition_ratio)

structure BootstrapCfg where
  changed_threshold : Int
  files_threshold : Int
  addition_ratio : ℚ
deriving DecidableEq

/-- `explain_spikes.py` `BootstrapCfg.is_bootstrap`: the three-clause OR
predicate over the dominant direction `max(insertions, deletions)`. -/
def BootstrapCfg.is_bootstrap (cfg : BootstrapCfg)
    (insertions deletions files_touched : Int) : Bool :=
  let changed := insertions + deletions
  if changed < cfg.changed_threshold then false
  else if changed ≤ 0 then false
  else
    let dominant := max insertions deletions
    let ratio : ℚ := (dominant : ℚ) / (changed : ℚ)
    if files_touched ≥ cfg.files_threshold ∧ ratio ≥ cfg.addition_ratio then true
    else if ratio ≥ cfg.addition_ratio ∧ changed ≥ cfg.changed_threshold * 8 then true
    else if files_touched ≥ cfg.files_threshold * 5 ∧ changed ≥ cfg.changed_threshold * 4 then true
    else false

/-! ## Shell glob matching (Python `fnmatch.fnmatch` on POSIX)

Supports `*`, `?`, `[seq]` and `[!seq]` character classes with ranges;
an unmatched `[` is a literal, as in `fnmatch.translate`. -/

/-- Scan for the closing `]` of a character class, returning the members
and the remainder of the pattern. -/
def findClose : List Char → Option (List Char × List Char)
  | [] => none
  | ']' :: rest => some ([], rest)
  | c :: rest => (findClose rest).map (fun mr => (c :: mr.1, mr.2))

/-- Turn the member text of a class into (lo, hi) ranges; a singleton
member `c` becomes `(c, c)`. -/
def toRanges : List Char → List (Char × Char)
  | a :: '-' :: b :: rest => (a, b) :: toRanges rest
  | a :: rest => (a, a) :: toRanges rest
  | [] => []

/-- Parse a character class body (the text after `[`): an optional `!`,
a leading literal `]` member, then members up to the closing `]`. -/
def parseClass (cs : List Char) : Option (Bool × List (Char × Char) × List Char) :=
  let (neg, cs1) : Bool × List Char :=
    match cs with
    | '!' :: r => (true, r)
    | _ => (false, cs)
  let (lead, cs2) : List Char × List Char :=
    match cs1 with
    | ']' :: r => ([']'], r)
    | _ => ([], cs1)
  match findClose cs2 with
  | none => none
  | some (ms, rest) => some (neg, toRanges (lead ++ ms), rest)

def matchClass (neg : Bool) (ranges : List (Char × Char)) (c : Char) : Bool :=
  let inR := ranges.any (fun r => r.1 ≤ c && c ≤ r.2)
  if neg then !inR else inR

/-- Worker for `globMatch`, structurally recursive on a fuel bound so
that it reduces in the kernel; every recursive call shrinks the combined
length of pattern and subject, so fuel `p.length + s.length + 1` never
runs out. -/
def globMatchFuel : Nat → List Char → List Char → Bool
  | 0, _, _ => false
  | _ + 1, [], [] => true
  | _ + 1, [], _ :: _ => false
  | fuel + 1, '*' :: ps, s =>
    globMatchFuel fuel ps s ||
      (match s with
       | [] => false
       | _ :: tail => globMatchFuel fuel ('*' :: ps) tail)
  | fuel + 1, '?' :: ps, _ :: tail => globMatchFuel fuel ps tail
  | _ + 1, '?' :: _, [] => false
  | fuel + 1, '[' :: ps, s =>
    (match parseClass ps with
     | none =>
       match s with
       | [] => false
       | c :: tail => c = '[' && globMatchFuel fuel ps tail
     | some (neg, ranges, rest) =>
       match s with
       | [] => false
       | c :: tail => matchClass neg ranges c && globMatchFuel fuel rest tail)
  | _ + 1, _ :: _, [] => false
  | fuel + 1, c :: ps, d :: tail => c = d && globMatchFuel fuel ps tail

/-- Glob matching of a pattern against a character list. -/
def globMatch (p s : List Char) : Bool :=
  globMatchFuel (p.length + s.length + 1) p s

/-- Python `fnmatch.fnmatch(name, pat)` (POSIX: `normcase` is identity). -/
def fnmatch (name pat : String) : Bool := globMatch pat.data name.data

/-! ## Path classifier (`src/git_analysis/analysis_paths.py`) -/

/-- `should_exclude_path(path, exclude_prefixes, exclude_globs)`. -/
def should_exclude_path (path : String) (exclude_prefixes exclude_globs : List String) : Bool :=
  let p := pyLStrip (replaceChar '\\' '/' path) ['.', '/']
  exclude_prefixes.any (fun pref =>
    let pr := pyLStrip (replaceChar '\\' '/' pref) ['.', '/']
    if pr = "" then false
    else
      let pr := if strEndsWith pr "/" then pr else pr ++ "/"
      strStartsWith p pr || strContains p ("/" ++ pr)) ||
  exclude_globs.any (fun pat => pat ≠ "" && fnmatch p pat)

/-- `normalize_numstat_path(path)`: strip, then resolve the git rename
arrow syntax (`src/\x7bold => new\x7d/f.py` or `old => new`) to the
post-rename path. -/
def normalize_numstat_path (path : String) : String :=
  let p := pyStrip path
  if strContains p " => " then
    let q := dropChar '\x7d' (dropChar '\x7b' p)
    pyStrip ((pySplit q " => ").getLastD "")
  else pyStrip p

/-- The `pathlib.PurePath.suffix` of a bare file name: the text from the
last dot on, empty when the dot is leading, trailing or absent. -/
def pySuffix (nm : List Char) : List Char :=
  if nm.contains '.' then
    let after := (nm.reverse.takeWhile (fun c => c ≠ '.')).reverse
    let i := nm.length - after.length - 1
    if 0 < i ∧ after ≠ [] then '.' :: after else []
  else []

/-- The extension table of `language_for_path`. -/
def extTable : List (String × String) :=
  [(".py", "Python"), (".ipynb", "Jupyter"), (".js", "JavaScript"),
   (".jsx", "JavaScript"), (".ts", "TypeScript"), (".tsx", "TypeScript"),
   (".mjs", "JavaScript"), (".cjs", "JavaScript"), (".java", "Java"),
   (".kt", "Kotlin"), (".swift", "Swift"), (".go", "Go"), (".rs", "Rust"),
   (".php", "PHP"), (".rb", "Ruby"), (".cs", "C#"), (".c", "C"),
   (".h", "C/C++ Headers"), (".cpp", "C++"), (".hpp", "C++"),
   (".mm", "Objective-C++"), (".m", "Objective-C"), (".scala", "Scala"),
   (".sql", "SQL"), (".tf", "Terraform"), (".yml", "YAML"),
   (".yaml", "YAML"), (".json", "JSON"), (".toml", "TOML"),
   (".ini", "INI"), (".md", "Markdown"), (".rst", "reStructuredText"),
   (".html", "HTML"), (".htm", "HTML"), (".css", "CSS"),
   (".scss", "SCSS"), (".sass", "Sass"), (".less", "Less"),
   (".sh", "Shell"), (".bash", "Shell"), (".zsh", "Shell"),
   (".ps1", "PowerShell"), (".bat", "Batch"), (".dockerignore", "Docker"),
   (".gradle", "Gradle"), (".xml", "XML"), (".proto", "Protobuf")]

/-- `language_for_path(path)`. -/
def language_for_path (path : String) : String :=
  let p := replaceChar '\\' '/' path
  let base : String := ⟨(splitSepL ['/'] p.data).getLastD []⟩
  if base = "Dockerfile" || strStartsWith (asciiLower base) "dockerfile." then "Dockerfile"
  else if base = "Makefile" || base = "makefile" then "Makefile"
  else
    let ext := asciiLower ⟨pySuffix base.data⟩
    match extTable.find? (fun kv => kv.1 = ext) with
    | some kv => kv.2
    | none => "Other"

/-- `dir_key_for_path(path, depth)`. -/
def dir_key_for_path (path : String) (depth : Nat := 1) : String :=
  let p := pyLStrip (replaceChar '\\' '/' path) ['.', '/']
  if p = "" || !strContains p "/" then "(root)"
  else
    let parts := (splitSepL ['/'] p.data).filter (fun x => x ≠ [])
    if parts = [] then "(root)"
    else ⟨joinSepL ['/'] (parts.take (max 1 depth))⟩

/-! ## Identity matcher (`src/git_analysis/identity.py`) -/

def normalize_email (email : String) : String := asciiLower (pyStrip email)

def normalize_name (name : String) : String := asciiLower (pyStrip name)

def normalize_github_username (username : String) : String :=
  asciiLower (pyLStrip (pyStrip username) ['@'])

/-- `github_username_from_email(email)`: extract a GitHub username from
the `users.noreply.github.com` no-reply address forms. -/
def github_username_from_email (email : String) : String :=
  let e := normalize_email email
  if e = "" then ""
  else if !strEndsWith e "@users.noreply.github.com" then ""
  else
    let localPart := (pySplitN e "@" 1).headD ""
    let localPart := if strContains localPart "+" then (pyRSplit1 localPart "+").getLastD "" else localPart
    normalize_github_username localPart

/-- The identity descriptor (`MeMatcher`); the Python frozensets and
tuples are embedded as lists with membership tests. -/
structure MeMatcher where
  emails : List String
  names : List String
  email_globs : List String := []
  name_globs : List String := []
  github_usernames : List String := []
deriving DecidableEq

/-- `MeMatcher.matches(author_name, author_email)`. -/
def MeMatcher.matches (m : MeMatcher) (author_name author_email : String) : Bool :=
  let email := normalize_email author_email
  if email ≠ "" && email ∈ m.emails then true
  else
    let name := normalize_name author_name
    if name ≠ "" && name ∈ m.names then true
    else
      let gh := if email ≠ "" then github_username_from_email email else ""
      if gh ≠ "" && gh ∈ m.github_usernames then true
      else if name ≠ "" && name ∈ m.github_usernames then true
      else if email ≠ "" && m.email_globs.any (fun pat => fnmatch email pat) then true
      else if name ≠ "" && m.name_globs.any (fun pat => fnmatch name pat) then true
      else false

/-! ## Dates and the weekly bucket key (`analysis_repo.py:_week_start_iso`)

Python `datetime` is embedded by the standard civil-calendar day-number
arithmetic: a date is the number of days since 1970-01-01 (proleptic
Gregorian), a parsed timestamp is a pair of (naive seconds since epoch,
UTC-offset seconds).  `date.weekday()` (Monday = 0) of day number `z` is
`(z + 3).emod 7` since 1970-01-01 was a Thursday.  `fromisoformat` is
embedded for the `YYYY-MM-DD[THH:MM[:SS][±HH:MM]]` forms actually
produced by `git log --date=iso-strict`; other inputs parse to `none`,
as they raise `ValueError` in Python. -/

def isLeapYear (y : Int) : Bool :=
  (y % 4 = 0 && y % 100 ≠ 0) || y % 400 = 0

def daysInMonth (y m : Int) : Int :=
  if m = 2 then (if isLeapYear y then 29 else 28)
  else if m = 4 || m = 6 || m = 9 || m = 11 then 30
  else 31

/-- Days since 1970-01-01 of a civil date (proleptic Gregorian). -/
def daysFromCivil (y m d : Int) : Int :=
  let y2 := if m ≤ 2 then y - 1 else y
  let era := y2 / 400
  let yoe := y2 - era * 400
  let mp := (m + 9) % 12
  let doy := (153 * mp + 2) / 5 + d - 1
  let doe := yoe * 365 + yoe / 4 - yoe / 100 + doy
  era * 146097 + doe - 719468

/-- Civil date (y, m, d) of a day number since 1970-01-01. -/
def civilFromDays (z0 : Int) : Int × Int × Int :=
  let z := z0 + 719468
  let era := z / 146097
  let doe := z - era * 146097
  let yoe := (doe - doe / 1460 + doe / 36524 - doe / 146096) / 365
  let y := yoe + era * 400
  let doy := doe - (365 * yoe + yoe / 4 - yoe / 100)
  let mp := (5 * doy + 2) / 153
  let d := doy - (153 * mp + 2) / 5 + 1
  let m := mp + (if mp < 10 then 3 else -9)
  (y + (if m ≤ 2 then 1 else 0), m, d)

def digitChar : Nat → Char
  | 0 => '0' | 1 => '1' | 2 => '2' | 3 => '3' | 4 => '4'
  | 5 => '5' | 6 => '6' | 7 => '7' | 8 => '8' | _ => '9'

def natDigitsAux : Nat → Nat → List Char
  | 0, _ => []
  | fuel + 1, n =>
    if n < 10 then [digitChar n]
    else natDigitsAux fuel (n / 10) ++ [digitChar (n % 10)]

def natDigits (n : Nat) : List Char := natDigitsAux (n + 1) n

/-- Zero-padded decimal rendering of a nonnegative integer. -/
def padNum (w : Nat) (n : Int) : String :=
  let ds := natDigits n.toNat
  ⟨List.replicate (w - ds.length) '0' ++ ds⟩

/-- `date.isoformat()`. -/
def isoDate (y m d : Int) : String :=
  padNum 4 y ++ "-" ++ padNum 2 m ++ "-" ++ padNum 2 d

/-- Parse exactly `width` ASCII digits. -/
def parseNatW (cs : List Char) (width : Nat) : Option Nat :=
  if cs.length = width && cs.all Char.isDigit then
    some (cs.foldl (fun n c => n * 10 + (c.toNat - '0'.toNat)) 0)
  else none

/-- Parse `YYYY-MM-DD` into a day number, validating ranges as
`datetime.date` does (years 1–9999). -/
def parseDateL (cs : List Char) : Option Int :=
  match splitSepL ['-'] cs with
  | [ys, ms, ds] =>
    match parseNatW ys 4, parseNatW ms 2, parseNatW ds 2 with
    | some y, some m, some d =>
      if 1 ≤ y && y ≤ 9999 && 1 ≤ m && m ≤ 12 && 1 ≤ d &&
          (d : Int) ≤ daysInMonth (y : Int) (m : Int) then
        some (daysFromCivil (y : Int) (m : Int) (d : Int))
      else none
    | _, _, _ => none
  | _ => none

/-- Parse `HH:MM` or `HH:MM:SS` into seconds since midnight. -/
def parseTimeL (cs : List Char) : Option Int :=
  match splitSepL [':'] cs with
  | [hs, ms] =>
    match parseNatW hs 2, parseNatW ms 2 with
    | some h, some mi => if h ≤ 23 && mi ≤ 59 then some ((h : Int) * 3600 + (mi : Int) * 60) else none
    | _, _ => none
  | [hs, ms, ss] =>
    match parseNatW hs 2, parseNatW ms 2, parseNatW ss 2 with
    | some h, some mi, some s =>
      if h ≤ 23 && mi ≤ 59 && s ≤ 59 then
        some ((h : Int) * 3600 + (mi : Int) * 60 + (s : Int))
      else none
    | _, _, _ => none
  | _ => none

/-- Parse `±HH:MM` into offset seconds. -/
def parseOffsetL (sign : Int) (cs : List Char) : Option Int :=
  match splitSepL [':'] cs with
  | [hs, ms] =>
    match parseNatW hs 2, parseNatW ms 2 with
    | some h, some mi =>
      if h ≤ 23 && mi ≤ 59 then some (sign * ((h : Int) * 3600 + (mi : Int) * 60)) else none
    | _, _ => none
  | _ => none

/-- Embeds `datetime.fromisoformat` on the iso-strict grammar: returns
(naive seconds since epoch, offset seconds), the offset `0` when the
string carries none (the caller treats a naive result as UTC). -/
def parseIsoL (s : String) : Option (Int × Int) :=
  match splitSepL ['T'] s.data with
  | [ds] => (parseDateL ds).map (fun days => (days * 86400, 0))
  | [ds, rest] =>
    match parseDateL ds with
    | none => none
    | some days =>
      let timeAndOff : List Char × Option (Int × List Char) :=
        match splitSepL ['+'] rest with
        | [t, o] => (t, some (1, o))
        | [t] =>
          match splitSepL ['-'] t with
          | [t2, o] => (t2, some (-1, o))
          | _ => (t, none)
        | _ => (rest, some (1, ['x']))
      match parseTimeL timeAndOff.1 with
      | none => none
      | some secs =>
        match timeAndOff.2 with
        | none => some (days * 86400 + secs, 0)
        | some (sign, ocs) =>
          match parseOffsetL sign ocs with
          | none => none
          | some off => some (days * 86400 + secs, off)
  | _ => none

/-- The UTC day number of a UTC timestamp in seconds. -/
def utcDays (utcSeconds : Int) : Int := utcSeconds / 86400

/-- The Monday at or before day number `z`
(`date_utc - timedelta(days=date_utc.weekday())`). -/
def weekStartDays (z : Int) : Int := z - (z + 3) % 7

/-- `analysis_repo.py:_week_start_iso(commit_iso)`: the weekly bucket
key, or `""` when the timestamp does not parse. -/
def week_start_iso (commit_iso : String) : String :=
  let s := pyStrip commit_iso
  if s = "" then ""
  else
    let s := if strEndsWith s "Z" then (⟨s.data.dropLast⟩ : String) ++ "+00:00" else s
    match parseIsoL s with
    | none => ""
    | some (naive, off) =>
      let utc := naive - off
      let ws := weekStartDays (utcDays utc)
      let ymd := civilFromDays ws
      isoDate ymd.1 ymd.2.1 ymd.2.2 ++ "T00:00:00Z"

/-! ## Stat records (`src/git_analysis/models.py` and the inner dicts)

The small per-key dicts (fixed key sets created by the `defaultdict`
factories in `analysis_repo.py`/`analysis_aggregate.py`) are embedded as
records with one field per dict key. -/

/-- `models.py:RepoYearStats` (period totals). -/
structure RepoYearStats where
  commits_total : Int := 0
  insertions_total : Int := 0
  deletions_total : Int := 0
  commits_me : Int := 0
  insertions_me : Int := 0
  deletions_me : Int := 0
deriving DecidableEq

/-- A weekly/monthly bucket value (also used for the monthly-by-language
inner buckets): keys `commits`, `insertions`, `deletions`. -/
structure WeekStat where
  commits : Int := 0
  insertions : Int := 0
  deletions : Int := 0
deriving DecidableEq

/-- A language/directory breakdown value: keys `insertions`,
`deletions`, `insertions_me`, `deletions_me`. -/
structure LangStat where
  insertions : Int := 0
  deletions : Int := 0
  insertions_me : Int := 0
  deletions_me : Int := 0
deriving DecidableEq

/-- `models.py:AuthorStats`. -/
structure AuthorStats where
  name : String := ""
  email : String := ""
  commits : Int := 0
  insertions : Int := 0
  deletions : Int := 0
deriving DecidableEq

def RepoYearStats.add (a b : RepoYearStats) : RepoYearStats :=
  ⟨a.commits_total + b.commits_total, a.insertions_total + b.insertions_total,
   a.deletions_total + b.deletions_total, a.commits_me + b.commits_me,
   a.insertions_me + b.insertions_me, a.deletions_me + b.deletions_me⟩

instance : Zero RepoYearStats := ⟨{}⟩
instance : Add RepoYearStats := ⟨RepoYearStats.add⟩

instance : AddCommMonoid RepoYearStats where
  add := RepoYearStats.add
  zero := {}
  nsmul := nsmulRec
  add_assoc a b c := by
    show RepoYearStats.add (RepoYearStats.add a b) c = RepoYearStats.add a (RepoYearStats.add b c)
    cases a; cases b; cases c; simp only [RepoYearStats.add, RepoYearStats.mk.injEq]; omega
  zero_add a := by
    show RepoYearStats.add {} a = a
    cases a; simp only [RepoYearStats.add, RepoYearStats.mk.injEq]; omega
  add_zero a := by
    show RepoYearStats.add a {} = a
    cases a; simp only [RepoYearStats.add, RepoYearStats.mk.injEq]; omega
  add_comm a b := by
    show RepoYearStats.add a b = RepoYearStats.add b a
    cases a; cases b; simp only [RepoYearStats.add, RepoYearStats.mk.injEq]; omega

def WeekStat.add (a b : WeekStat) : WeekStat :=
  ⟨a.commits + b.commits, a.insertions + b.insertions, a.deletions + b.deletions⟩

instance : Zero WeekStat := ⟨{}⟩
instance : Add WeekStat := ⟨WeekStat.add⟩

instance : AddCommMonoid WeekStat where
  add := WeekStat.add
  zero := {}
  nsmul := nsmulRec
  add_assoc a b c := by
    show WeekStat.add (WeekStat.add a b) c = WeekStat.add a (WeekStat.add b c)
    cases a; cases b; cases c; simp only [WeekStat.add, WeekStat.mk.injEq]; omega
  zero_add a := by
    show WeekStat.add {} a = a
    cases a; simp only [WeekStat.add, WeekStat.mk.injEq]; omega
  add_zero a := by
    show WeekStat.add a {} = a
    cases a; simp only [WeekStat.add, WeekStat.mk.injEq]; omega
  add_comm a b := by
    show WeekStat.add a b = WeekStat.add b a
    cases a; cases b; simp only [WeekStat.add, WeekStat.mk.injEq]; omega

def LangStat.add (a b : LangStat) : LangStat :=
  ⟨a.insertions + b.insertions, a.deletions + b.deletions,
   a.insertions_me + b.insertions_me, a.deletions_me + b.deletions_me⟩

instance : Zero LangStat := ⟨{}⟩
instance : Add LangStat := ⟨LangStat.add⟩

instance : AddCommMonoid LangStat where
  add := LangStat.add
  zero := {}
  nsmul := nsmulRec
  add_assoc a b c := by
    show LangStat.add (LangStat.add a b) c = LangStat.add a (LangStat.add b c)
    cases a; cases b; cases c; simp only [LangStat.add, LangStat.mk.injEq]; omega
  zero_add a := by
    show LangStat.add {} a = a
    cases a; simp only [LangStat.add, LangStat.mk.injEq]; omega
  add_zero a := by
    show LangStat.add a {} = a
    cases a; simp only [LangStat.add, LangStat.mk.injEq]; omega
  add_comm a b := by
    show LangStat.add a b = LangStat.add b a
    cases a; cases b; simp only [LangStat.add, LangStat.mk.injEq]; omega

/-! ## String-keyed maps as association lists

Python `dict`s (and `defaultdict`s) are embedded as association lists.
`bumpWith` applies an update to the entry of a key, appending the entry
with a default value first when the key is absent — exactly a
`defaultdict` access followed by a mutation. -/

/-- First-match lookup (Python `dict.get`). -/
def lookup? {V : Type} : List (String × V) → String → Option V
  | [], _ => none
  | kv :: rest, k => if kv.1 = k then some kv.2 else lookup? rest k

/-- Lookup with a zero default (`dict.get(k, 0)`-style reads). -/
def get0 {V : Type} [Zero V] (m : List (String × V)) (k : String) : V :=
  (lookup? m k).getD 0

/-- Update the entry at `k` with `f`, starting from `d` when absent. -/
def bumpWith {V : Type} (m : List (String × V)) (k : String) (f : V → V) (d : V) :
    List (String × V) :=
  match m with
  | [] => [(k, f d)]
  | kv :: rest => if kv.1 = k then (kv.1, f kv.2) :: rest else kv :: bumpWith rest k f d

/-- `defaultdict` entry addition: `m[k] += v` with zero default. -/
def bumpAdd {V : Type} [AddCommMonoid V] (m : List (String × V)) (k : String) (v : V) :
    List (String × V) :=
  bumpWith m k (fun x => x + v) 0

/-- Merge by per-key addition: the shared body of
`analysis_aggregate.py:merge_breakdown`, `merge_weekly` and
`merge_me_monthly` (three textually identical Python functions). -/
def mergeAdd {V : Type} [AddCommMonoid V] (dst src : List (String × V)) :
    List (String × V) :=
  src.foldl (fun d kv => bumpAdd d kv.1 kv.2) dst

/-- The sum of all values stored under key `k` (equals `get0` when the
keys are duplicate-free, i.e. for every list embedding a Python dict). -/
def keySum {V : Type} [AddCommMonoid V] (m : List (String × V)) (k : String) : V :=
  ((m.filter (fun kv => kv.1 = k)).map Prod.snd).sum

/-- The sum of all values in the map. -/
def sumVals {V : Type} [AddCommMonoid V] (m : List (String × V)) : V :=
  (m.map Prod.snd).sum

/-! ## Bounded top-commits heap (`heapq` on `(changed, sha, commit_iso, row)`)

Python compares the heap tuples lexicographically; the dict in the
fourth slot is only reached when the first three components tie (which
would raise `TypeError` in Python), so the embedded order compares the
`(changed, sha, commit_iso)` key.  String comparison is by code point,
as in Python.  The `heapq` loops are embedded with explicit fuel, which
the call sites always supply in sufficient quantity. -/

/-- A row of the top-commits selection (the `commit_row` dict). -/
structure CommitRow where
  sha : String := ""
  commit_iso : String := ""
  author_name : String := ""
  author_email : String := ""
  is_me : Bool := false
  is_bootstrap : Bool := false
  subject : String := ""
  files_touched : Int := 0
  insertions : Int := 0
  deletions : Int := 0
  changed : Int := 0
deriving DecidableEq

/-- A row of the detected-bootstrap-commits list. -/
structure BootRow where
  sha : String := ""
  commit_iso : String := ""
  author_name : String := ""
  author_email : String := ""
  is_me : Bool := false
  subject : String := ""
  files_touched : Int := 0
  insertions : Int := 0
  deletions : Int := 0
  changed : Int := 0
deriving DecidableEq

/-- Python string `<` (code-point lexicographic). -/
def strLtL : List Char → List Char → Bool
  | [], [] => false
  | [], _ :: _ => true
  | _ :: _, [] => false
  | a :: as, b :: bs =>
    if a.toNat < b.toNat then true
    else if b.toNat < a.toNat then false
    else strLtL as bs

def strLt (a b : String) : Bool := strLtL a.data b.data

abbrev HeapEntry := (Int × String × String) × CommitRow

def dfltEntry : HeapEntry := ((0, "", ""), {})

/-- Lexicographic `<` on the heap entries' comparison keys. -/
def entryLt (a b : HeapEntry) : Bool :=
  if a.1.1 < b.1.1 then true
  else if b.1.1 < a.1.1 then false
  else if strLt a.1.2.1 b.1.2.1 then true
  else if strLt b.1.2.1 a.1.2.1 then false
  else strLt a.1.2.2 b.1.2.2

/-- `heapq._siftdown(heap, startpos, pos)`: move the item at `pos` up
toward `startpos` until its parent is not larger. -/
def siftdownAux (startpos : Nat) (newitem : HeapEntry) :
    Nat → Array HeapEntry → Nat → Array HeapEntry
  | 0, heap, pos => heap.setD pos newitem
  | fuel + 1, heap, pos =>
    if startpos < pos then
      let parentpos := (pos - 1) / 2
      let parent := heap.getD parentpos dfltEntry
      if entryLt newitem parent then
        siftdownAux startpos newitem fuel (heap.setD pos parent) parentpos
      else heap.setD pos newitem
    else heap.setD pos newitem

def heapSiftdown (heap : Array HeapEntry) (startpos pos : Nat) : Array HeapEntry :=
  siftdownAux startpos (heap.getD pos dfltEntry) pos heap pos

/-- The loop of `heapq._siftup`: move the hole at `pos` down to a leaf,
always taking the smaller child. -/
def siftupLoop : Nat → Array HeapEntry → Nat → Nat → Nat → Array HeapEntry × Nat
  | 0, heap, pos, _, _ => (heap, pos)
  | fuel + 1, heap, pos, childpos, endpos =>
    if childpos < endpos then
      let rightpos := childpos + 1
      let childpos :=
        if rightpos < endpos &&
            !(entryLt (heap.getD childpos dfltEntry) (heap.getD rightpos dfltEntry)) then
          rightpos
        else childpos
      let heap := heap.setD pos (heap.getD childpos dfltEntry)
      siftupLoop fuel heap childpos (2 * childpos + 1) endpos
    else (heap, pos)

/-- `heapq._siftup(heap, pos)`. -/
def heapSiftup (heap : Array HeapEntry) (pos : Nat) : Array HeapEntry :=
  let endpos := heap.size
  let startpos := pos
  let newitem := heap.getD pos dfltEntry
  let hp := siftupLoop endpos heap pos (2 * pos + 1) endpos
  heapSiftdown (hp.1.setD hp.2 newitem) startpos hp.2

/-- `heapq.heappush`. -/
def heapPush (heap : Array HeapEntry) (item : HeapEntry) : Array HeapEntry :=
  let heap := heap.push item
  heapSiftdown heap 0 (heap.size - 1)

/-- `heapq.heapreplace`: replace the root and restore the heap. -/
def heapReplace (heap : Array HeapEntry) (item : HeapEntry) : Array HeapEntry :=
  heapSiftup (heap.setD 0 item) 0

/-! ## The commit stream parser (`analysis_repo.py:parse_numstat_stream`)

The subprocess plumbing (spawning `git log`, draining stderr) is outside
the model; the embedding covers the per-line state machine and the
`apply_commit` finalizer, as a fold over the stream's lines. -/

/-- The excluded-path counters dict. -/
structure ExclStat where
  excluded_files : Int := 0
  excluded_insertions : Int := 0
  excluded_deletions : Int := 0
  excluded_changed : Int := 0
deriving DecidableEq

/-- The parser's current-commit accumulator (the `current_*` variables). -/
structure Cur where
  sha : String := ""
  author_name : String := ""
  author_email : String := ""
  is_me : Bool := false
  commit_iso : String := ""
  subject : String := ""
  insertions : Int := 0
  deletions : Int := 0
  files_touched : Int := 0
  langs : List (String × Int × Int) := []
  dirs : List (String × Int × Int) := []
  excluded_files : Int := 0
  excluded_insertions : Int := 0
  excluded_deletions : Int := 0
  excluded_changed : Int := 0
deriving DecidableEq

/-- The parser's output accumulators. -/
structure Acc where
  stats_excl : RepoYearStats := {}
  stats_boot : RepoYearStats := {}
  weekly_excl : List (String × WeekStat) := []
  weekly_boot : List (String × WeekStat) := []
  weekly_tech_excl : List (String × List (String × WeekStat)) := []
  weekly_tech_boot : List (String × List (String × WeekStat)) := []
  me_weekly_excl : List (String × WeekStat) := []
  me_weekly_boot : List (String × WeekStat) := []
  me_weekly_tech_excl : List (String × List (String × WeekStat)) := []
  me_weekly_tech_boot : List (String × List (String × WeekStat)) := []
  authors_excl : List (String × AuthorStats) := []
  authors_boot : List (String × AuthorStats) := []
  languages_excl : List (String × LangStat) := []
  languages_boot : List (String × LangStat) := []
  dirs_excl : List (String × LangStat) := []
  dirs_boot : List (String × LangStat) := []
  me_monthly_excl : List (String × WeekStat) := []
  me_monthly_boot : List (String × WeekStat) := []
  me_monthly_tech_excl : List (String × List (String × WeekStat)) := []
  me_monthly_tech_boot : List (String × List (String × WeekStat)) := []
  excluded : ExclStat := {}
  bootstrap_commits : List BootRow := []
  top_heap : Array HeapEntry := #[]
deriving DecidableEq

structure PState where
  acc : Acc := {}
  cur : Cur := {}
deriving DecidableEq

/-- The caller-supplied parameters of `parse_numstat_stream` (the two
`set[str] | None` parameters are embedded as lists; `None` is `[]`). -/
structure ParseParams where
  me : MeMatcher
  bootstrap : BootstrapConfig
  exclude_path_prefixes : List String := []
  exclude_path_globs : List String := []
  bootstrap_exclude_shas : List String := []
  exclude_commits : List String := []

/-- The `month -> {commits,insertions,deletions}` key of a commit:
`iso[:7]` when `len(iso) >= 7 and iso[4:5] == "-"`, else `""`. -/
def monthKeyOf (iso : String) : String :=
  if iso.data.length ≥ 7 ∧ iso.data.getD 4 ' ' = '-' then ⟨iso.data.take 7⟩ else ""

/-- The `LangStat` contribution of one per-commit language row. -/
def langStatOf (is_me : Bool) (p : Int × Int) : LangStat :=
  ⟨p.1, p.2, if is_me then p.1 else 0, if is_me then p.2 else 0⟩

/-- `apply_commit()`: finalize the current commit into the accumulators
and reset the current-commit state. -/
def applyCommit (p : ParseParams) (st : PState) : PState :=
  let c := st.cur
  let a := st.acc
  if c.sha = "" then st
  else if c.sha ∈ p.exclude_commits then { acc := a, cur := {} }
  else
    let excluded1 : ExclStat :=
      ⟨a.excluded.excluded_files + c.excluded_files,
       a.excluded.excluded_insertions + c.excluded_insertions,
       a.excluded.excluded_deletions + c.excluded_deletions,
       a.excluded.excluded_changed + c.excluded_changed⟩
    let is_boot := p.bootstrap.is_bootstrap c.insertions c.deletions c.files_touched
      && !(c.sha ∈ p.bootstrap_exclude_shas : Bool)
    let stats0 := if is_boot then a.stats_boot else a.stats_excl
    let stats1 : RepoYearStats :=
      { stats0 with
        commits_total := stats0.commits_total + 1,
        insertions_total := stats0.insertions_total + c.insertions,
        deletions_total := stats0.deletions_total + c.deletions,
        commits_me := stats0.commits_me + (if c.is_me then 1 else 0),
        insertions_me := stats0.insertions_me + (if c.is_me then c.insertions else 0),
        deletions_me := stats0.deletions_me + (if c.is_me then c.deletions else 0) }
    let wk := week_start_iso c.commit_iso
    let weekly0 := if is_boot then a.weekly_boot else a.weekly_excl
    let weekly1 := if wk ≠ "" then bumpAdd weekly0 wk ⟨1, c.insertions, c.deletions⟩ else weekly0
    let techRows := c.langs.filter (fun kv => !(kv.2.1 + kv.2.2 ≤ 0 : Bool))
    let bumpTech : List (String × WeekStat) → List (String × WeekStat) := fun inner =>
      techRows.foldl (fun m kv => bumpAdd m kv.1 ⟨1, kv.2.1, kv.2.2⟩) inner
    let wt0 := if is_boot then a.weekly_tech_boot else a.weekly_tech_excl
    let wt1 := if wk ≠ "" ∧ techRows ≠ [] then bumpWith wt0 wk bumpTech [] else wt0
    let mw0 := if is_boot then a.me_weekly_boot else a.me_weekly_excl
    let mw1 := if wk ≠ "" ∧ c.is_me then bumpAdd mw0 wk ⟨1, c.insertions, c.deletions⟩ else mw0
    let mwt0 := if is_boot then a.me_weekly_tech_boot else a.me_weekly_tech_excl
    let mwt1 := if wk ≠ "" ∧ c.is_me ∧ techRows ≠ [] then bumpWith mwt0 wk bumpTech [] else mwt0
    let email_key := if c.author_email ≠ "" then normalize_email c.author_email else ""
    let authors0 := if is_boot then a.authors_boot else a.authors_excl
    let authors1 :=
      if email_key ≠ "" then
        bumpWith authors0 email_key
          (fun au =>
            { au with
              commits := au.commits + 1,
              insertions := au.insertions + c.insertions,
              deletions := au.deletions + c.deletions })
          ⟨c.author_name, c.author_email, 0, 0, 0⟩
      else authors0
    let langs0 := if is_boot then a.languages_boot else a.languages_excl
    let langs1 := mergeAdd langs0 (c.langs.map (fun kv => (kv.1, langStatOf c.is_me kv.2)))
    let dirs0 := if is_boot then a.dirs_boot else a.dirs_excl
    let dirs1 := mergeAdd dirs0 (c.dirs.map (fun kv => (kv.1, langStatOf c.is_me kv.2)))
    let month_key := monthKeyOf c.commit_iso
    let mm0 := if is_boot then a.me_monthly_boot else a.me_monthly_excl
    let mm1 :=
      if c.is_me ∧ month_key ≠ "" then bumpAdd mm0 month_key ⟨1, c.insertions, c.deletions⟩
      else mm0
    let bumpMonthTech : List (String × WeekStat) → List (String × WeekStat) := fun inner =>
      c.langs.foldl (fun m kv => bumpAdd m kv.1 ⟨1, kv.2.1, kv.2.2⟩) inner
    let mmt0 := if is_boot then a.me_monthly_tech_boot else a.me_monthly_tech_excl
    let mmt1 :=
      if c.is_me ∧ month_key ≠ "" ∧ c.langs ≠ [] then bumpWith mmt0 month_key bumpMonthTech []
      else mmt0
    let boots1 :=
      if is_boot then
        a.bootstrap_commits ++
          [⟨c.sha, c.commit_iso, c.author_name, c.author_email, c.is_me, c.subject,
            c.files_touched, c.insertions, c.deletions, c.insertions + c.deletions⟩]
      else a.bootstrap_commits
    let row : CommitRow :=
      ⟨c.sha, c.commit_iso, c.author_name, c.author_email, c.is_me, is_boot, c.subject,
       c.files_touched, c.insertions, c.deletions, c.insertions + c.deletions⟩
    let entry : HeapEntry := ((c.insertions + c.deletions, c.sha, c.commit_iso), row)
    let heap1 :=
      if a.top_heap.size < 50 then heapPush a.top_heap entry
      else if entryLt (a.top_heap.getD 0 dfltEntry) entry then heapReplace a.top_heap entry
      else a.top_heap
    { acc :=
        { stats_excl := if is_boot then a.stats_excl else stats1,
          stats_boot := if is_boot then stats1 else a.stats_boot,
          weekly_excl := if is_boot then a.weekly_excl else weekly1,
          weekly_boot := if is_boot then weekly1 else a.weekly_boot,
          weekly_tech_excl := if is_boot then a.weekly_tech_excl else wt1,
          weekly_tech_boot := if is_boot then wt1 else a.weekly_tech_boot,
          me_weekly_excl := if is_boot then a.me_weekly_excl else mw1,
          me_weekly_boot := if is_boot then mw1 else a.me_weekly_boot,
          me_weekly_tech_excl := if is_boot then a.me_weekly_tech_excl else mwt1,
          me_weekly_tech_boot := if is_boot then mwt1 else a.me_weekly_tech_boot,
          authors_excl := if is_boot then a.authors_excl else authors1,
          authors_boot := if is_boot then authors1 else a.authors_boot,
          languages_excl := if is_boot then a.languages_excl else langs1,
          languages_boot := if is_boot then langs1 else a.languages_boot,
          dirs_excl := if is_boot then a.dirs_excl else dirs1,
          dirs_boot := if is_boot then dirs1 else a.dirs_boot,
          me_monthly_excl := if is_boot then a.me_monthly_excl else mm1,
          me_monthly_boot := if is_boot then mm1 else a.me_monthly_boot,
          me_monthly_tech_excl := if is_boot then a.me_monthly_tech_excl else mmt1,
          me_monthly_tech_boot := if is_boot then mmt1 else a.me_monthly_tech_boot,
          excluded := excluded1,
          bootstrap_commits := boots1,
          top_heap := heap1 },
      cur := {} }

/-- The `@@@` commit-header branch of the line loop: apply the previous
commit, then load the tab-separated header fields (tolerant of missing
trailing fields) into a fresh current-commit state. -/
def headerStep (p : ParseParams) (st : PState) (line : String) : PState :=
  let st1 := applyCommit p st
  let parts := pySplitN (⟨line.data.drop 3⟩ : String) "\t" 4
  let name := parts.getD 1 ""
  let email := parts.getD 2 ""
  { acc := st1.acc,
    cur :=
      { sha := parts.getD 0 "",
        author_name := name,
        author_email := email,
        commit_iso := parts.getD 3 "",
        subject := parts.getD 4 "",
        is_me := p.me.matches name email } }

/-- The numstat-row branch of the line loop, on the (at least two)
tab-separated fields: `-` counts are zero; unparsable counts skip the
row; excluded paths feed the excluded counters; otherwise the language
and top-directory running maps and the running totals. -/
def numstatRow (p : ParseParams) (st : PState) (parts : List String) : PState :=
  let added_s := parts.getD 0 ""
  let deleted_s := parts.getD 1 ""
  let file_path :=
    if parts.length ≥ 3 then normalize_numstat_path (parts.getD 2 "") else ""
  let counts : Option (Int × Int) :=
    if added_s = "-" || deleted_s = "-" then some (0, 0)
    else
      match pyInt? added_s, pyInt? deleted_s with
      | some av, some dv => some (av, dv)
      | _, _ => none
  match counts with
  | none => st
  | some (added, deleted) =>
    if file_path ≠ "" ∧
        should_exclude_path file_path p.exclude_path_prefixes p.exclude_path_globs then
      { st with
        cur :=
          { st.cur with
            excluded_files := st.cur.excluded_files + 1,
            excluded_insertions := st.cur.excluded_insertions + added,
            excluded_deletions := st.cur.excluded_deletions + deleted,
            excluded_changed := st.cur.excluded_changed + added + deleted } }
    else
      let cur1 :=
        if file_path ≠ "" then
          { st.cur with
            langs := bumpAdd st.cur.langs (language_for_path file_path) (added, deleted),
            dirs := bumpAdd st.cur.dirs (dir_key_for_path file_path 1) (added, deleted) }
        else st.cur
      { st with
        cur :=
          { cur1 with
            insertions := cur1.insertions + added,
            deletions := cur1.deletions + deleted,
            files_touched := cur1.files_touched + 1 } }

/-- One line of the stream: a `@@@`-sentinel commit header or a numstat
row `added \t deleted \t path`. -/
def stepLine (p : ParseParams) (st : PState) (raw_line : String) : PState :=
  let line := pyRStrip raw_line ['\n']
  if line = "" then st
  else if strStartsWith line "@@@" then headerStep p st line
  else
    let parts := pySplitN line "\t" 2
    if parts.length < 2 then st else numstatRow p st parts

/-- `parse_numstat_stream`, as a function of the line stream: fold the
per-line step over the lines, then apply the final in-progress commit. -/
def parse_numstat_stream (p : ParseParams) (lines : List String) : Acc :=
  (applyCommit p (lines.foldl (stepLine p) {})).acc

/-! ## The rollup aggregator (`src/git_analysis/analysis_aggregate.py`)

`RepoResult` is embedded with the per-period rollup maps the aggregator
reads (the identification and audit fields of the Python dataclass do
not enter any aggregate and are omitted). -/

/-- Generic `dict.get(k, d)`. -/
def lookupD {V : Type} (m : List (String × V)) (k : String) (d : V) : V :=
  (lookup? m k).getD d

/-- The rollup fields of `models.py:RepoResult`. -/
structure RepoResult where
  period_stats_excl_bootstraps : List (String × RepoYearStats) := []
  period_stats_bootstraps : List (String × RepoYearStats) := []
  weekly_by_period_excl_bootstraps : List (String × List (String × WeekStat)) := []
  weekly_by_period_bootstraps : List (String × List (String × WeekStat)) := []
  authors_by_period_excl_bootstraps : List (String × List (String × AuthorStats)) := []
  authors_by_period_bootstraps : List (String × List (String × AuthorStats)) := []
  languages_by_period_excl_bootstraps : List (String × List (String × LangStat)) := []
  languages_by_period_bootstraps : List (String × List (String × LangStat)) := []
  dirs_by_period_excl_bootstraps : List (String × List (String × LangStat)) := []
  dirs_by_period_bootstraps : List (String × List (String × LangStat)) := []
  me_monthly_by_period_excl_bootstraps : List (String × List (String × WeekStat)) := []
  me_monthly_by_period_bootstraps : List (String × List (String × WeekStat)) := []
  me_monthly_tech_by_period_excl_bootstraps :
    List (String × List (String × List (String × WeekStat))) := []
  me_monthly_tech_by_period_bootstraps :
    List (String × List (String × List (String × WeekStat))) := []
deriving DecidableEq

/-- `add_repo_year_stats(dst, src)` (mutating add of all six fields). -/
def add_repo_year_stats (dst src : RepoYearStats) : RepoYearStats :=
  RepoYearStats.add dst src

/-- `repo_period_stats(r, period_label, include_bootstraps)`. -/
def repo_period_stats (r : RepoResult) (period_label : String)
    (include_bootstraps : Bool) : RepoYearStats :=
  let out := add_repo_year_stats {} (lookupD r.period_stats_excl_bootstraps period_label {})
  if include_bootstraps then
    add_repo_year_stats out (lookupD r.period_stats_bootstraps period_label {})
  else out

/-- `merge_breakdown(dst, src)` (per-key, per-field addition). -/
def merge_breakdown (dst src : List (String × LangStat)) : List (String × LangStat) :=
  mergeAdd dst src

/-- `merge_weekly(dst, src)` (textually the same merge as
`merge_breakdown`, over the weekly bucket dicts). -/
def merge_weekly (dst src : List (String × WeekStat)) : List (String × WeekStat) :=
  mergeAdd dst src

/-- `merge_me_monthly(dst, src)` (again the same merge). -/
def merge_me_monthly (dst src : List (String × WeekStat)) : List (String × WeekStat) :=
  mergeAdd dst src

/-- `merge_me_monthly_tech(dst, src)`: nested month → tech merge. -/
def merge_me_monthly_tech (dst src : List (String × List (String × WeekStat))) :
    List (String × List (String × WeekStat)) :=
  src.foldl (fun d kv => bumpWith d kv.1 (fun inner => mergeAdd inner kv.2) []) dst

/-- `merge_author_stats(dst, src)`: numeric fields add; a blank kept
name/email is filled from the source entry. -/
def merge_author_stats (dst src : List (String × AuthorStats)) :
    List (String × AuthorStats) :=
  src.foldl
    (fun d kv =>
      bumpWith d kv.1
        (fun cur =>
          { name := if cur.name = "" ∧ kv.2.name ≠ "" then kv.2.name else cur.name,
            email := if cur.email = "" ∧ kv.2.email ≠ "" then kv.2.email else cur.email,
            commits := cur.commits + kv.2.commits,
            insertions := cur.insertions + kv.2.insertions,
            deletions := cur.deletions + kv.2.deletions })
        ⟨kv.2.name, kv.2.email, 0, 0, 0⟩)
    dst

/-- The shared per-repo merge loop of the `aggregate_*` functions:
bootstraps-only reads the bootstrap map; otherwise the excluding map is
merged, then the bootstrap map as well when `include_bootstraps`. -/
def aggMerge {V : Type} [AddCommMonoid V] (getE getB : RepoResult → List (String × V))
    (repos : List RepoResult) (include_bootstraps bootstraps_only : Bool) :
    List (String × V) :=
  repos.foldl
    (fun agg r =>
      if bootstraps_only then mergeAdd agg (getB r)
      else
        let agg2 := mergeAdd agg (getE r)
        if include_bootstraps then mergeAdd agg2 (getB r) else agg2)
    []

/-- The output rows of `aggregate_languages`/`aggregate_dirs` (the
source dicts with the derived `changed*`/`*_others` fields). -/
structure LangOut where
  insertions : Int := 0
  deletions : Int := 0
  changed : Int := 0
  insertions_me : Int := 0
  deletions_me : Int := 0
  changed_me : Int := 0
  insertions_others : Int := 0
  deletions_others : Int := 0
  changed_others : Int := 0
deriving DecidableEq

def LangOut.add (a b : LangOut) : LangOut :=
  ⟨a.insertions + b.insertions, a.deletions + b.deletions, a.changed + b.changed,
   a.insertions_me + b.insertions_me, a.deletions_me + b.deletions_me,
   a.changed_me + b.changed_me, a.insertions_others + b.insertions_others,
   a.deletions_others + b.deletions_others, a.changed_others + b.changed_others⟩

instance : Zero LangOut := ⟨{}⟩
instance : Add LangOut := ⟨LangOut.add⟩

instance : AddCommMonoid LangOut where
  add := LangOut.add
  zero := {}
  nsmul := nsmulRec
  add_assoc a b c := by
    show LangOut.add (LangOut.add a b) c = LangOut.add a (LangOut.add b c)
    cases a; cases b; cases c; simp only [LangOut.add, LangOut.mk.injEq]; omega
  zero_add a := by
    show LangOut.add {} a = a
    cases a; simp only [LangOut.add, LangOut.mk.injEq]; omega
  add_zero a := by
    show LangOut.add a {} = a
    cases a; simp only [LangOut.add, LangOut.mk.injEq]; omega
  add_comm a b := by
    show LangOut.add a b = LangOut.add b a
    cases a; cases b; simp only [LangOut.add, LangOut.mk.injEq]; omega

/-- The output rows of `aggregate_weekly`/`aggregate_me_monthly` (the
bucket dicts with the derived `changed`). -/
structure WeekOut where
  commits : Int := 0
  insertions : Int := 0
  deletions : Int := 0
  changed : Int := 0
deriving DecidableEq

def WeekOut.add (a b : WeekOut) : WeekOut :=
  ⟨a.commits + b.commits, a.insertions + b.insertions, a.deletions + b.deletions,
   a.changed + b.changed⟩

instance : Zero WeekOut := ⟨{}⟩
instance : Add WeekOut := ⟨WeekOut.add⟩

instance : AddCommMonoid WeekOut where
  add := WeekOut.add
  zero := {}
  nsmul := nsmulRec
  add_assoc a b c := by
    show WeekOut.add (WeekOut.add a b) c = WeekOut.add a (WeekOut.add b c)
    cases a; cases b; cases c; simp only [WeekOut.add, WeekOut.mk.injEq]; omega
  zero_add a := by
    show WeekOut.add {} a = a
    cases a; simp only [WeekOut.add, WeekOut.mk.injEq]; omega
  add_zero a := by
    show WeekOut.add a {} = a
    cases a; simp only [WeekOut.add, WeekOut.mk.injEq]; omega
  add_comm a b := by
    show WeekOut.add a b = WeekOut.add b a
    cases a; cases b; simp only [WeekOut.add, WeekOut.mk.injEq]; omega

/-- The derived output row of a language/directory aggregate. -/
def deriveLang (st : LangStat) : LangOut :=
  ⟨st.insertions, st.deletions, st.insertions + st.deletions,
   st.insertions_me, st.deletions_me, st.insertions_me + st.deletions_me,
   st.insertions - st.insertions_me, st.deletions - st.deletions_me,
   (st.insertions + st.deletions) - (st.insertions_me + st.deletions_me)⟩

/-- The derived output row of a weekly/monthly aggregate. -/
def deriveWeek (st : WeekStat) : WeekOut :=
  ⟨st.commits, st.insertions, st.deletions, st.insertions + st.deletions⟩

/-- Map the values of an association list, keeping the keys. -/
def mapVals {V W : Type} (f : V → W) (m : List (String × V)) : List (String × W) :=
  m.map (fun kv => (kv.1, f kv.2))

/-- `aggregate_weekly(repos, period_label, include_bootstraps,
bootstraps_only)`. -/
def aggregate_weekly (repos : List RepoResult) (period_label : String)
    (include_bootstraps : Bool) (bootstraps_only : Bool := false) :
    List (String × WeekOut) :=
  mapVals deriveWeek
    (aggMerge (fun r => lookupD r.weekly_by_period_excl_bootstraps period_label [])
      (fun r => lookupD r.weekly_by_period_bootstraps period_label [])
      repos include_bootstraps bootstraps_only)

/-- `aggregate_me_monthly(...)`. -/
def aggregate_me_monthly (repos : List RepoResult) (period_label : String)
    (include_bootstraps : Bool) (bootstraps_only : Bool := false) :
    List (String × WeekOut) :=
  mapVals deriveWeek
    (aggMerge (fun r => lookupD r.me_monthly_by_period_excl_bootstraps period_label [])
      (fun r => lookupD r.me_monthly_by_period_bootstraps period_label [])
      repos include_bootstraps bootstraps_only)

/-- `aggregate_me_monthly_tech(...)`: month → tech → derived row. -/
def aggregate_me_monthly_tech (repos : List RepoResult) (period_label : String)
    (include_bootstraps : Bool) (bootstraps_only : Bool := false) :
    List (String × List (String × WeekOut)) :=
  let agg := repos.foldl
    (fun agg r =>
      if bootstraps_only then
        merge_me_monthly_tech agg (lookupD r.me_monthly_tech_by_period_bootstraps period_label [])
      else
        let agg2 := merge_me_monthly_tech agg
          (lookupD r.me_monthly_tech_by_period_excl_bootstraps period_label [])
        if include_bootstraps then
          merge_me_monthly_tech agg2 (lookupD r.me_monthly_tech_by_period_bootstraps period_label [])
        else agg2)
    []
  mapVals (mapVals deriveWeek) agg

/-- `aggregate_authors(...)`. -/
def aggregate_authors (repos : List RepoResult) (period_label : String)
    (include_bootstraps : Bool) (bootstraps_only : Bool := false) :
    List (String × AuthorStats) :=
  repos.foldl
    (fun agg r =>
      if bootstraps_only then
        merge_author_stats agg (lookupD r.authors_by_period_bootstraps period_label [])
      else
        let agg2 := merge_author_stats agg
          (lookupD r.authors_by_period_excl_bootstraps period_label [])
        if include_bootstraps then
          merge_author_stats agg2 (lookupD r.authors_by_period_bootstraps period_label [])
        else agg2)
    []

/-- `aggregate_languages(...)`. -/
def aggregate_languages (repos : List RepoResult) (period_label : String)
    (include_bootstraps : Bool) (bootstraps_only : Bool := false) :
    List (String × LangOut) :=
  mapVals deriveLang
    (aggMerge (fun r => lookupD r.languages_by_period_excl_bootstraps period_label [])
      (fun r => lookupD r.languages_by_period_bootstraps period_label [])
      repos include_bootstraps bootstraps_only)

/-- `aggregate_dirs(...)`. -/
def aggregate_dirs (repos : List RepoResult) (period_label : String)
    (include_bootstraps : Bool) (bootstraps_only : Bool := false) :
    List (String × LangOut) :=
  mapVals deriveLang
    (aggMerge (fun r => lookupD r.dirs_by_period_excl_bootstraps period_label [])
      (fun r => lookupD r.dirs_by_period_bootstraps period_label [])
      repos include_bootstraps bootstraps_only)

/-- The `total` accumulation of `aggregate_period(...)`: the six numeric
totals summed over the repositories (the audit counters of that function
do not enter the composition claim). -/
def aggregate_period_total (repos : List RepoResult) (period_label : String)
    (include_bootstraps : Bool) (bootstraps_only : Bool := false) : RepoYearStats :=
  repos.foldl
    (fun total r =>
      let ys :=
        if bootstraps_only then lookupD r.period_stats_bootstraps period_label {}
        else repo_period_stats r period_label include_bootstraps
      RepoYearStats.add total ys)
    {}

/-! ## Repository deduplication
(`src/git_analysis/analysis_selection.py:discover_and_select_repos`)

The embedding covers the dedupe fold (source lines 92–167) over
candidates that already passed resolution/remote/fork filtering, and the
assembly and sorting of `repos_to_analyze` (lines 169–175).  Filesystem
walking, the git queries and the audit rows are outside the model: each
candidate record carries the values those queries return.  `_repo_key_for`
(a SHA-256 hex digest of the dedupe key) is passed as the parameter
`rkf`, since no claim depends on its value. -/

/-- A filtered discovery candidate with its git-query results. -/
structure SelCand where
  top : String
  remote_name : String
  remote : String
  remote_canonical : String
  last_iso : Option String
  last_ts : Option Int
deriving DecidableEq

/-- A `by_key` entry. -/
structure SelEntry where
  repo : String
  repo_key : String
  remote_name : String
  remote : String
  remote_canonical : String
  dups : List String
  last_ts : Option Int
  last_iso : Option String
deriving DecidableEq

/-- One row of `repos_to_analyze`. -/
structure RepoTuple where
  repo_key : String
  repo : String
  remote_name : String
  remote : String
  remote_canonical : String
  dups : List String
deriving DecidableEq

/-- The dedupe key (source lines 92–95). -/
def dedupeKeyOf (dedupe : String) (c : SelCand) : String :=
  if dedupe = "remote" ∧ c.remote_canonical ≠ "" then c.remote_canonical else c.top

/-- Replace the value stored under a (present) key. -/
def setEntry (m : List (String × SelEntry)) (k : String) (v : SelEntry) :
    List (String × SelEntry) :=
  bumpWith m k (fun _ => v) v

/-- One candidate of the dedupe fold (source lines 96–167).  When the
kept entry's `last_ts` is `None` the source re-queries the kept clone's
last commit; the timestamp is a fixed attribute of that clone, so the
re-query returns the stored value again and the embedding reads
`entry.last_ts` directly. -/
def selStep (dedupe : String) (rkf : String → String)
    (byKey : List (String × SelEntry)) (c : SelCand) : List (String × SelEntry) :=
  let dedupe_key := dedupeKeyOf dedupe c
  let repo_key := rkf dedupe_key
  match lookup? byKey dedupe_key with
  | none =>
    byKey ++
      [(dedupe_key,
        ⟨c.top, repo_key, c.remote_name, c.remote, c.remote_canonical, [],
         c.last_ts, c.last_iso⟩)]
  | some entry =>
    let dup_path := c.top
    let cand_ts := c.last_ts
    let entry_ts := entry.last_ts
    let prefer_new : Bool :=
      match cand_ts, entry_ts with
      | none, _ => false
      | some _, none => true
      | some a, some b => a > b
    if prefer_new then
      let prev_path := entry.repo
      let dups1 :=
        if prev_path ≠ dup_path ∧ prev_path ∉ entry.dups then entry.dups ++ [prev_path]
        else entry.dups
      setEntry byKey dedupe_key
        ⟨c.top, repo_key, c.remote_name, c.remote, c.remote_canonical, dups1,
         cand_ts, entry.last_iso⟩
    else
      let dups1 :=
        if dup_path ≠ entry.repo ∧ dup_path ∉ entry.dups then entry.dups ++ [dup_path]
        else entry.dups
      setEntry byKey dedupe_key { entry with dups := dups1 }

/-- Stable ascending insertion, keeping earlier equal-keyed rows first
(Python's stable sort by `x[1].as_posix()`). -/
def insertByRepo (x : RepoTuple) : List RepoTuple → List RepoTuple
  | [] => [x]
  | y :: rest =>
    if !(strLt x.repo y.repo) then y :: insertByRepo x rest else x :: y :: rest

def sortByRepo (l : List RepoTuple) : List RepoTuple :=
  l.foldl (fun acc x => insertByRepo x acc) []

/-- `discover_and_select_repos`, from the dedupe fold on: the `by_key`
fold over the filtered candidates and the sorted `repos_to_analyze`. -/
def discover_and_select_repos (dedupe : String) (rkf : String → String)
    (cands : List SelCand) : List RepoTuple :=
  let byKey := cands.foldl (selStep dedupe rkf) []
  sortByRepo
    (byKey.map (fun kv =>
      ⟨kv.2.repo_key, kv.2.repo, kv.2.remote_name, kv.2.remote, kv.2.remote_canonical,
       kv.2.dups⟩))

/-! ## Reconciliation predicates (the check of `validate_reports.py`) -/

/-- The four language-relevant totals of a `RepoYearStats`, as one
`LangStat` record. -/
def langTotals (s : RepoYearStats) : LangStat :=
  ⟨s.insertions_total, s.deletions_total, s.insertions_me, s.deletions_me⟩

/-- The reconciliation invariant: in both bootstrap views, the sums of
the per-language insertions/deletions (and `-me` variants) over all
language keys equal the corresponding period totals. -/
def Reconciled (acc : Acc) : Prop :=
  sumVals acc.languages_excl = langTotals acc.stats_excl ∧
  sumVals acc.languages_boot = langTotals acc.stats_boot

/-- The parser's running per-commit consistency: the per-language
running totals sum to the running commit totals. -/
def CurOk (cur : Cur) : Prop :=
  sumVals cur.langs = (cur.insertions, cur.deletions)

/-- A line the reconciliation invariant survives: blank, a commit
header, a row the parser skips, or a numstat row carrying a path that
normalizes to a nonempty string (every row `git log --numstat` emits is
of this form). -/
def GoodLine (raw : String) : Prop :=
  let line := pyRStrip raw ['\n']
  line = "" ∨ strStartsWith line "@@@" = true ∨ (pySplitN line "\t" 2).length < 2 ∨
    ((pySplitN line "\t" 2).length ≥ 3 ∧
      normalize_numstat_path ((pySplitN line "\t" 2).getD 2 "") ≠ "")

instance (raw : String) : Decidable (GoodLine raw) := by
  unfold GoodLine
  infer_instance

/-- The total number of commits attributed across an author map. -/
def authorCommitsSum (m : List (String × AuthorStats)) : Int :=
  (m.map (fun kv => kv.2.commits)).sum

/-- The inner map of a nested (month → tech → stat) map at a month key,
empty when absent. -/
def getL {V : Type} (m : List (String × List (String × V))) (k : String) :
    List (String × V) :=
  lookupD m k []

/-- The value of a nested (month → tech → stat) map at a (month, tech)
key pair, zero when absent. -/
def get20 {V : Type} [Zero V] (m : List (String × List (String × V))) (mo te : String) : V :=
  get0 (getL m mo) te

/-- The numeric fields of an `AuthorStats`, as a `(commits, insertions,
deletions)` triple (an author map's additive content). -/
def authNums (a : AuthorStats) : WeekStat :=
  ⟨a.commits, a.insertions, a.deletions⟩

/-- The sum, over the entries of a nested map stored under the month
key, of the inner values stored under the tech key. -/
def keySumTech (m : List (String × List (String × WeekStat))) (mo te : String) : WeekStat :=
  ((m.filter (fun kv => kv.1 = mo)).map (fun kv => keySum kv.2 te)).sum

/-! ## Lemmas about the map operations -/

theorem RepoYearStats_add_def (a b : RepoYearStats) : a + b = RepoYearStats.add a b := rfl
theorem RepoYearStats_zero_def : (0 : RepoYearStats) = ({} : RepoYearStats) := rfl
theorem WeekStat_add_def (a b : WeekStat) : a + b = WeekStat.add a b := rfl
theorem WeekStat_zero_def : (0 : WeekStat) = ({} : WeekStat) := rfl
theorem LangStat_add_def (a b : LangStat) : a + b = LangStat.add a b := rfl
theorem LangStat_zero_def : (0 : LangStat) = ({} : LangStat) := rfl
theorem LangOut_add_def (a b : LangOut) : a + b = LangOut.add a b := rfl
theorem LangOut_zero_def : (0 : LangOut) = ({} : LangOut) := rfl
theorem WeekOut_add_def (a b : WeekOut) : a + b = WeekOut.add a b := rfl
theorem WeekOut_zero_def : (0 : WeekOut) = ({} : WeekOut) := rfl

@[simp] theorem get0_nil {V : Type} [Zero V] (k : String) :
    get0 ([] : List (String × V)) k = 0 := rfl

@[simp] theorem get0_cons {V : Type} [Zero V] (kv : String × V) (rest : List (String × V))
    (k : String) : get0 (kv :: rest) k = if kv.1 = k then kv.2 else get0 rest k := by
  simp only [get0, lookup?]
  split <;> rfl

@[simp] theorem keySum_nil {V : Type} [AddCommMonoid V] (k : String) :
    keySum ([] : List (String × V)) k = 0 := rfl

@[simp] theorem keySum_cons {V : Type} [AddCommMonoid V] (kv : String × V)
    (rest : List (String × V)) (k : String) :
    keySum (kv :: rest) k = (if kv.1 = k then kv.2 else 0) + keySum rest k := by
  simp only [keySum, List.filter_cons]
  by_cases h : kv.1 = k <;> simp [h]

@[simp] theorem sumVals_nil {V : Type} [AddCommMonoid V] :
    sumVals ([] : List (String × V)) = 0 := rfl

@[simp] theorem sumVals_cons {V : Type} [AddCommMonoid V] (kv : String × V)
    (rest : List (String × V)) : sumVals (kv :: rest) = kv.2 + sumVals rest := by
  simp [sumVals]

theorem get0_bumpAdd {V : Type} [AddCommMonoid V] (m : List (String × V)) (k : String)
    (v : V) (q : String) :
    get0 (bumpAdd m k v) q = get0 m q + (if k = q then v else 0) := by
  induction m with
  | nil =>
    simp only [bumpAdd, bumpWith, get0_cons, get0_nil]
    by_cases h : k = q <;> simp [h]
  | cons kv rest ih =>
    simp only [bumpAdd, bumpWith] at *
    by_cases h1 : kv.1 = k
    · subst h1
      simp only [if_pos rfl, get0_cons]
      by_cases h2 : kv.1 = q <;> simp [h2]
    · rw [if_neg h1]
      simp only [get0_cons]
      by_cases h2 : kv.1 = q
      · have hkq : ¬ k = q := fun h => h1 (h2.trans h.symm)
        simp [h2, hkq]
      · simp [h2, ih]

theorem keySum_bumpAdd {V : Type} [AddCommMonoid V] (m : List (String × V)) (k : String)
    (v : V) (q : String) :
    keySum (bumpAdd m k v) q = keySum m q + (if k = q then v else 0) := by
  induction m with
  | nil =>
    simp only [bumpAdd, bumpWith, keySum_cons, keySum_nil]
    by_cases h : k = q <;> simp [h]
  | cons kv rest ih =>
    simp only [bumpAdd, bumpWith] at *
    by_cases h1 : kv.1 = k
    · subst h1
      simp only [if_pos rfl, keySum_cons]
      by_cases h2 : kv.1 = q <;> simp [h2, add_assoc, add_comm, add_left_comm]
    · rw [if_neg h1]
      simp only [keySum_cons]
      rw [ih, add_assoc]

theorem get0_mergeAdd {V : Type} [AddCommMonoid V] (src : List (String × V))
    (dst : List (String × V)) (k : String) :
    get0 (mergeAdd dst src) k = get0 dst k + keySum src k := by
  induction src generalizing dst with
  | nil => simp [mergeAdd]
  | cons kv rest ih =>
    simp only [mergeAdd, List.foldl_cons, keySum_cons] at *
    rw [ih, get0_bumpAdd]
    by_cases h : kv.1 = k <;> simp [h, add_assoc, add_comm, add_left_comm]

theorem keySum_mergeAdd {V : Type} [AddCommMonoid V] (src : List (String × V))
    (dst : List (String × V)) (k : String) :
    keySum (mergeAdd dst src) k = keySum dst k + keySum src k := by
  induction src generalizing dst with
  | nil => simp [mergeAdd]
  | cons kv rest ih =>
    simp only [mergeAdd, List.foldl_cons, keySum_cons] at *
    rw [ih, keySum_bumpAdd]
    by_cases h : kv.1 = k <;> simp [h, add_assoc, add_comm, add_left_comm]

theorem keySum_eq_zero_of_not_mem {V : Type} [AddCommMonoid V] (m : List (String × V))
    (k : String) (h : k ∉ m.map Prod.fst) : keySum m k = 0 := by
  induction m with
  | nil => simp
  | cons kv rest ih =>
    simp only [List.map_cons, List.mem_cons] at h
    push_neg at h
    have h1 : ¬ kv.1 = k := fun hh => h.1 hh.symm
    simp [h1, ih h.2]

theorem keySum_eq_get0 {V : Type} [AddCommMonoid V] (m : List (String × V)) (k : String)
    (h : (m.map Prod.fst).Nodup) : keySum m k = get0 m k := by
  induction m with
  | nil => simp
  | cons kv rest ih =>
    simp only [List.map_cons, List.nodup_cons] at h
    by_cases hk : kv.1 = k
    · subst hk
      simp [keySum_eq_zero_of_not_mem rest kv.1 h.1]
    · simp [hk, ih h.2]

theorem sumVals_bumpAdd {V : Type} [AddCommMonoid V] (m : List (String × V)) (k : String)
    (v : V) : sumVals (bumpAdd m k v) = sumVals m + v := by
  induction m with
  | nil => simp [bumpAdd, bumpWith]
  | cons kv rest ih =>
    simp only [bumpAdd, bumpWith] at *
    by_cases h : kv.1 = k
    · simp [h, add_assoc, add_comm, add_left_comm]
    · simp [h, ih, add_assoc]

theorem sumVals_mergeAdd {V : Type} [AddCommMonoid V] (src dst : List (String × V)) :
    sumVals (mergeAdd dst src) = sumVals dst + sumVals src := by
  induction src generalizing dst with
  | nil => simp [mergeAdd]
  | cons kv rest ih =>
    simp only [mergeAdd, List.foldl_cons, sumVals_cons] at *
    rw [ih, sumVals_bumpAdd, add_assoc, add_comm kv.2 (sumVals rest), ← add_assoc, add_assoc]

/-! ## Parser reconciliation lemmas -/

theorem langStatOf_add (me : Bool) (p q : Int × Int) :
    langStatOf me (p + q) = LangStat.add (langStatOf me p) (langStatOf me q) := by
  cases me <;> simp [langStatOf, LangStat.add]

theorem sumVals_map_langStatOf (me : Bool) (l : List (String × Int × Int)) :
    sumVals (l.map (fun kv => (kv.1, langStatOf me kv.2))) = langStatOf me (sumVals l) := by
  induction l with
  | nil => cases me <;> simp [langStatOf, LangStat_zero_def]
  | cons kv rest ih =>
    simp only [List.map_cons, sumVals_cons, ih, langStatOf_add, LangStat_add_def,
      Prod.mk_add_mk]

theorem curOk_empty : CurOk {} := by
  simp [CurOk, sumVals]

theorem applyCommit_inv (p : ParseParams) (st : PState)
    (hR : Reconciled st.acc) (hC : CurOk st.cur) :
    Reconciled (applyCommit p st).acc ∧ CurOk (applyCommit p st).cur := by
  by_cases hsha : st.cur.sha = ""
  · simp only [applyCommit, if_pos hsha]
    exact ⟨hR, hC⟩
  · by_cases hexc : st.cur.sha ∈ p.exclude_commits
    · simp only [applyCommit, if_neg hsha, if_pos hexc]
      exact ⟨hR, curOk_empty⟩
    · simp only [applyCommit, if_neg hsha, if_neg hexc]
      refine ⟨?_, curOk_empty⟩
      cases hB : (p.bootstrap.is_bootstrap st.cur.insertions st.cur.deletions
          st.cur.files_touched && !(decide (st.cur.sha ∈ p.bootstrap_exclude_shas))) with
      | false =>
        refine ⟨?_, hR.2⟩
        show sumVals (mergeAdd st.acc.languages_excl _) = _
        rw [sumVals_mergeAdd, sumVals_map_langStatOf, hC, hR.1]
        cases hme : st.cur.is_me <;>
          simp [langStatOf, langTotals, LangStat.add, LangStat_add_def, hme]
      | true =>
        refine ⟨hR.1, ?_⟩
        show sumVals (mergeAdd st.acc.languages_boot _) = _
        rw [sumVals_mergeAdd, sumVals_map_langStatOf, hC, hR.2]
        cases hme : st.cur.is_me <;>
          simp [langStatOf, langTotals, LangStat.add, LangStat_add_def, hme]

theorem numstatRow_inv (p : ParseParams) (st : PState) (parts : List String)
    (hgood : parts.length ≥ 3 ∧ normalize_numstat_path (parts.getD 2 "") ≠ "")
    (hR : Reconciled st.acc) (hC : CurOk st.cur) :
    Reconciled (numstatRow p st parts).acc ∧ CurOk (numstatRow p st parts).cur := by
  unfold numstatRow
  rw [if_pos hgood.1]
  simp only [if_pos hgood.2]
  have hrow : ∀ added deleted : Int, ∀ q : PState,
      q = (if normalize_numstat_path (parts.getD 2 "") ≠ "" ∧
          should_exclude_path (normalize_numstat_path (parts.getD 2 ""))
            p.exclude_path_prefixes p.exclude_path_globs then
        { st with
          cur :=
            { st.cur with
              excluded_files := st.cur.excluded_files + 1,
              excluded_insertions := st.cur.excluded_insertions + added,
              excluded_deletions := st.cur.excluded_deletions + deleted,
              excluded_changed := st.cur.excluded_changed + added + deleted } }
      else
        { st with
          cur :=
            { { st.cur with
                langs := bumpAdd st.cur.langs
                  (language_for_path (normalize_numstat_path (parts.getD 2 ""))) (added, deleted),
                dirs := bumpAdd st.cur.dirs
                  (dir_key_for_path (normalize_numstat_path (parts.getD 2 "")) 1) (added, deleted) } with
              insertions := st.cur.insertions + added,
              deletions := st.cur.deletions + deleted,
              files_touched := st.cur.files_touched + 1 } }) →
      Reconciled q.acc ∧ CurOk q.cur := by
    intro added deleted q hq
    subst hq
    split
    · exact ⟨hR, hC⟩
    · refine ⟨hR, ?_⟩
      show sumVals (bumpAdd st.cur.langs _ (added, deleted)) = _
      rw [sumVals_bumpAdd, hC]
      simp [Prod.ext_iff]
  cases hdash : ((parts.getD 0 "") = "-" || (parts.getD 1 "") = "-" : Bool) with
  | true =>
    simp only [hdash, if_true]
    exact hrow 0 0 _ rfl
  | false =>
    simp only [hdash, Bool.false_eq_true, if_false]
    cases pyInt? (parts.getD 0 "") with
    | none => exact ⟨hR, hC⟩
    | some av =>
      cases pyInt? (parts.getD 1 "") with
      | none => exact ⟨hR, hC⟩
      | some dv => exact hrow av dv _ rfl

theorem headerStep_inv (p : ParseParams) (st : PState) (line : String)
    (hR : Reconciled st.acc) (hC : CurOk st.cur) :
    Reconciled (headerStep p st line).acc ∧ CurOk (headerStep p st line).cur := by
  unfold headerStep
  obtain ⟨h1, _⟩ := applyCommit_inv p st hR hC
  exact ⟨h1, by simp [CurOk, sumVals]⟩

theorem stepLine_inv (p : ParseParams) (st : PState) (l : String) (hl : GoodLine l)
    (hR : Reconciled st.acc) (hC : CurOk st.cur) :
    Reconciled (stepLine p st l).acc ∧ CurOk (stepLine p st l).cur := by
  unfold stepLine
  by_cases hblank : pyRStrip l ['\n'] = ""
  · simp only [if_pos hblank]
    exact ⟨hR, hC⟩
  · rw [if_neg hblank]
    by_cases hhdr : strStartsWith (pyRStrip l ['\n']) "@@@" = true
    · rw [if_pos hhdr]
      exact headerStep_inv p st _ hR hC
    · rw [if_neg hhdr]
      by_cases hlen : (pySplitN (pyRStrip l ['\n']) "\t" 2).length < 2
      · rw [if_pos hlen]
        exact ⟨hR, hC⟩
      · rw [if_neg hlen]
        refine numstatRow_inv p st _ ?_ hR hC
        rcases hl with h | h | h | h
        · exact absurd h hblank
        · exact absurd h hhdr
        · exact absurd h hlen
        · exact h

theorem foldl_inv (p : ParseParams) (lines : List String)
    (h : ∀ l ∈ lines, GoodLine l) (st : PState)
    (hR : Reconciled st.acc) (hC : CurOk st.cur) :
    Reconciled (List.foldl (stepLine p) st lines).acc ∧
    CurOk (List.foldl (stepLine p) st lines).cur := by
  induction lines generalizing st with
  | nil => exact ⟨hR, hC⟩
  | cons l rest ih =>
    have hstep := stepLine_inv p st l (h l (List.mem_cons_self l rest)) hR hC
    exact ih (fun x hx => h x (List.mem_cons_of_mem l hx)) _ hstep.1 hstep.2

theorem reconciled_empty : Reconciled ({} : Acc) := by
  constructor <;> simp [sumVals, langTotals, LangStat_zero_def]

theorem authorCommitsSum_bump (m : List (String × AuthorStats)) (k : String)
    (ins del : Int) (nm em : String) :
    authorCommitsSum (bumpWith m k
      (fun au =>
        { au with
          commits := au.commits + 1,
          insertions := au.insertions + ins,
          deletions := au.deletions + del })
      ⟨nm, em, 0, 0, 0⟩) = authorCommitsSum m + 1 := by
  induction m with
  | nil => simp [bumpWith, authorCommitsSum]
  | cons kv rest ih =>
    simp only [bumpWith] at *
    by_cases h : kv.1 = k
    · simp only [if_pos h, authorCommitsSum, List.map_cons, List.sum_cons]
      omega
    · simp only [if_neg h, authorCommitsSum, List.map_cons, List.sum_cons] at *
      omega

/-! ## The claims -/

/-- C1: the spec claims the classifier used by the commit stream parser
(`BootstrapConfig.is_bootstrap` in `models.py`) implements the
three-clause OR predicate over `max(insertions, deletions)`.  It does
not: the `models.py` classifier requires both thresholds and an
insertion-only ratio, and disagrees with the three-clause predicate of
`explain_spikes.py` (which its comment says must be kept in sync) on the
deletion-dominant, extreme-churn and extreme-sweep inputs that the
repository's own tests assert are bootstraps. -/
theorem claim_C1_bootstrap_classifier_divergence :
    BootstrapConfig.is_bootstrap ⟨10, 3, 9 / 10⟩ 0 15 3 = false ∧
    BootstrapCfg.is_bootstrap ⟨10, 3, 9 / 10⟩ 0 15 3 = true ∧
    BootstrapConfig.is_bootstrap ⟨10, 3, 9 / 10⟩ 100 0 1 = false ∧
    BootstrapCfg.is_bootstrap ⟨10, 3, 9 / 10⟩ 100 0 1 = true ∧
    BootstrapConfig.is_bootstrap ⟨10, 3, 9 / 10⟩ 20 20 20 = false ∧
    BootstrapCfg.is_bootstrap ⟨10, 3, 9 / 10⟩ 20 20 20 = true := by
  refine ⟨?_, ?_, ?_, ?_, ?_, ?_⟩ <;>
    simp only [BootstrapConfig.is_bootstrap, BootstrapCfg.is_bootstrap] <;> norm_num

/-- C2: with `changed_threshold=10, files_threshold=3,
addition_ratio=0.90`, the spec claims the engine's bootstrap classifier
returns false for (3,0,3) and true for (0,15,3), (100,0,1) and
(20,20,20).  The engine classifier (`models.py:BootstrapConfig`, the one
`parse_numstat_stream` calls) returns false on all four inputs; only the
`explain_spikes.py` reimplementation returns the claimed values. -/
theorem claim_C2_bootstrap_boundary_divergence :
    BootstrapConfig.is_bootstrap ⟨10, 3, 9 / 10⟩ 3 0 3 = false ∧
    BootstrapConfig.is_bootstrap ⟨10, 3, 9 / 10⟩ 0 15 3 = false ∧
    BootstrapConfig.is_bootstrap ⟨10, 3, 9 / 10⟩ 100 0 1 = false ∧
    BootstrapConfig.is_bootstrap ⟨10, 3, 9 / 10⟩ 20 20 20 = false ∧
    BootstrapCfg.is_bootstrap ⟨10, 3, 9 / 10⟩ 3 0 3 = false ∧
    BootstrapCfg.is_bootstrap ⟨10, 3, 9 / 10⟩ 0 15 3 = true ∧
    BootstrapCfg.is_bootstrap ⟨10, 3, 9 / 10⟩ 100 0 1 = true ∧
    BootstrapCfg.is_bootstrap ⟨10, 3, 9 / 10⟩ 20 20 20 = true := by
  refine ⟨?_, ?_, ?_, ?_, ?_, ?_, ?_, ?_⟩ <;>
    simp only [BootstrapConfig.is_bootstrap, BootstrapCfg.is_bootstrap] <;> norm_num

/-- C5: the weekly bucket key is the Monday 00:00:00 UTC at or before
the commit's author timestamp converted to UTC: the week-start day
number is a Monday (`weekday = (z + 3) % 7 = 0` in Python's Monday = 0
convention) at most six days before the UTC date, and on the two
offset-crossing examples `_week_start_iso` yields the claimed keys. -/
theorem claim_C5_week_bucketing :
    (∀ z : Int, (weekStartDays z + 3) % 7 = 0 ∧ weekStartDays z ≤ z ∧ z < weekStartDays z + 7) ∧
    week_start_iso "2025-01-05T23:30:00-08:00" = "2025-01-06T00:00:00Z" ∧
    week_start_iso "2025-01-06T00:30:00+02:00" = "2024-12-30T00:00:00Z" := by
  refine ⟨fun z => ?_, by decide, by decide⟩
  unfold weekStartDays
  omega

/-- C3 (counterexample): the reconciliation invariant as claimed for
every line stream is violated by a stream whose counted numstat row
carries no path: a two-field row `5\t3` adds to `insertions_total` but
to no language key, so the per-language sums miss 5 insertions. -/
theorem claim_C3_counterexample :
    (parse_numstat_stream
        { me := { emails := [], names := [] }, bootstrap := {} }
        ["@@@s\ta\tb\tt\tsub", "5\t3"]).languages_excl = [] ∧
    (parse_numstat_stream
        { me := { emails := [], names := [] }, bootstrap := {} }
        ["@@@s\ta\tb\tt\tsub", "5\t3"]).stats_excl.insertions_total = 5 := by
  constructor <;> decide

/-- C3 (amended): for every stream whose counted numstat rows each carry
a nonempty normalized path (as all rows produced by `git log --numstat`
do), the per-language sums of insertions, deletions and the `-me`
variants equal the corresponding period totals, in both the
excluding-bootstraps and the bootstraps-only view. -/
theorem claim_C3_reconciliation_amended (p : ParseParams) (lines : List String)
    (h : ∀ l ∈ lines, GoodLine l) :
    sumVals (parse_numstat_stream p lines).languages_excl =
      langTotals (parse_numstat_stream p lines).stats_excl ∧
    sumVals (parse_numstat_stream p lines).languages_boot =
      langTotals (parse_numstat_stream p lines).stats_boot := by
  have hfold := foldl_inv p lines h {} reconciled_empty curOk_empty
  exact (applyCommit_inv p _ hfold.1 hfold.2).1

/-- C3 (witness): the amended reconciliation theorem applied to a
concrete two-commit stream. -/
theorem claim_C3_witness :
    (∀ l ∈ ["@@@abc\tAl\tal@x.com\t2025-02-10T12:00:00Z\tmsg", "3\t1\tf.py", "2\t0\tg.js"],
      GoodLine l) ∧
    (sumVals (parse_numstat_stream
        { me := { emails := ["al@x.com"], names := [] }, bootstrap := {} }
        ["@@@abc\tAl\tal@x.com\t2025-02-10T12:00:00Z\tmsg", "3\t1\tf.py", "2\t0\tg.js"]).languages_excl =
      langTotals (parse_numstat_stream
        { me := { emails := ["al@x.com"], names := [] }, bootstrap := {} }
        ["@@@abc\tAl\tal@x.com\t2025-02-10T12:00:00Z\tmsg", "3\t1\tf.py", "2\t0\tg.js"]).stats_excl ∧
    sumVals (parse_numstat_stream
        { me := { emails := ["al@x.com"], names := [] }, bootstrap := {} }
        ["@@@abc\tAl\tal@x.com\t2025-02-10T12:00:00Z\tmsg", "3\t1\tf.py", "2\t0\tg.js"]).languages_boot =
      langTotals (parse_numstat_stream
        { me := { emails := ["al@x.com"], names := [] }, bootstrap := {} }
        ["@@@abc\tAl\tal@x.com\t2025-02-10T12:00:00Z\tmsg", "3\t1\tf.py", "2\t0\tg.js"]).stats_boot) :=
  ⟨by decide, claim_C3_reconciliation_amended _ _ (by decide)⟩

/-- C6: two filtered candidates sharing a dedupe key with distinct
last-commit timestamps dedupe to exactly one analyzed repository row,
the clone with the larger timestamp, with the other clone's path in the
kept row's duplicates list, and the result does not depend on the
discovery order. -/
theorem claim_C6_dedupe_freshest_wins (dedupe : String) (rkf : String → String)
    (a b : SelCand) (ta tb : Int)
    (hkey : dedupeKeyOf dedupe a = dedupeKeyOf dedupe b)
    (hpath : a.top ≠ b.top)
    (hta : a.last_ts = some ta) (htb : b.last_ts = some tb) (hne : ta ≠ tb) :
    discover_and_select_repos dedupe rkf [a, b] = discover_and_select_repos dedupe rkf [b, a] ∧
    discover_and_select_repos dedupe rkf [a, b] =
      (if ta < tb then
        [⟨rkf (dedupeKeyOf dedupe b), b.top, b.remote_name, b.remote, b.remote_canonical, [a.top]⟩]
      else
        [⟨rkf (dedupeKeyOf dedupe a), a.top, a.remote_name, a.remote, a.remote_canonical, [b.top]⟩]) := by
  have hpath2 : b.top ≠ a.top := fun h => hpath h.symm
  simp only [discover_and_select_repos, selStep, List.foldl_cons, List.foldl_nil]
  rw [← hkey]
  generalize dedupeKeyOf dedupe a = k
  rcases lt_or_gt_of_ne hne with h | h
  · have hgt : (tb > ta) = True := by simp [h]
    have hngt : (ta > tb) = False := by simp [Int.not_lt.mpr (le_of_lt h)]
    simp [lookup?, setEntry, bumpWith, sortByRepo, insertByRepo,
      hta, htb, hgt, hngt, hpath, hpath2, if_pos h]
  · have hgt : (tb > ta) = False := by simp [Int.not_lt.mpr (le_of_lt h)]
    have hngt : (ta > tb) = True := by simp [h]
    have hnlt : ¬ (ta < tb) := Int.not_lt.mpr (le_of_lt h)
    simp [lookup?, setEntry, bumpWith, sortByRepo, insertByRepo,
      hta, htb, hgt, hngt, hpath, hpath2, if_neg hnlt]

/-- C6 (witness): the dedupe theorem applied to two concrete clones of
the same canonical remote, the second one fresher. -/
theorem claim_C6_witness :
    (dedupeKeyOf "remote" ⟨"/c/a", "origin", "git@h:p", "h/p", some "i", some 10⟩ =
        dedupeKeyOf "remote" ⟨"/c/b", "origin", "git@h:p", "h/p", some "j", some 20⟩ ∧
      ("/c/a" : String) ≠ "/c/b" ∧ (10 : Int) ≠ 20) ∧
    (discover_and_select_repos "remote" (fun s => s)
        [⟨"/c/a", "origin", "git@h:p", "h/p", some "i", some 10⟩,
         ⟨"/c/b", "origin", "git@h:p", "h/p", some "j", some 20⟩] =
      discover_and_select_repos "remote" (fun s => s)
        [⟨"/c/b", "origin", "git@h:p", "h/p", some "j", some 20⟩,
         ⟨"/c/a", "origin", "git@h:p", "h/p", some "i", some 10⟩] ∧
    discover_and_select_repos "remote" (fun s => s)
        [⟨"/c/a", "origin", "git@h:p", "h/p", some "i", some 10⟩,
         ⟨"/c/b", "origin", "git@h:p", "h/p", some "j", some 20⟩] =
      (if (10 : Int) < 20 then
        [⟨(fun s => s) (dedupeKeyOf "remote" ⟨"/c/b", "origin", "git@h:p", "h/p", some "j", some 20⟩),
          "/c/b", "origin", "git@h:p", "h/p", ["/c/a"]⟩]
      else
        [⟨(fun s => s) (dedupeKeyOf "remote" ⟨"/c/a", "origin", "git@h:p", "h/p", some "i", some 10⟩),
          "/c/a", "origin", "git@h:p", "h/p", ["/c/b"]⟩])) :=
  ⟨⟨by decide, by decide, by decide⟩,
    claim_C6_dedupe_freshest_wins "remote" (fun s => s) _ _ 10 20
      (by decide) (by decide) rfl rfl (by decide)⟩

/-- C8: a commit whose sha is in the caller-supplied `exclude_commits`
set is discarded with no side effects: applying it returns the
accumulators unchanged and the current-commit state reset. -/
theorem claim_C8_exclude_commits_frame (p : ParseParams) (st : PState)
    (h1 : st.cur.sha ≠ "") (h2 : st.cur.sha ∈ p.exclude_commits) :
    applyCommit p st = ⟨st.acc, {}⟩ := by
  simp only [applyCommit]
  rw [if_neg h1, if_pos h2]

/-- C8 (witness): the frame theorem at a concrete excluded commit. -/
theorem claim_C8_witness :
    (("abc" : String) ≠ "" ∧ ("abc" : String) ∈ ["abc", "zzz"]) ∧
    applyCommit
        { me := { emails := [], names := [] }, bootstrap := {},
          exclude_commits := ["abc", "zzz"] }
        { acc := {},
          cur := { sha := "abc", author_name := "A", commit_iso := "2025-02-10T12:00:00Z",
                   insertions := 7, deletions := 2, files_touched := 1,
                   langs := [("Python", 7, 2)], dirs := [("(root)", 7, 2)] } } =
      ⟨{}, {}⟩ :=
  ⟨⟨by decide, by decide⟩,
    claim_C8_exclude_commits_frame _ _ (by decide) (by decide)⟩

/-- C10: a commit whose sha is in `bootstrap_exclude_shas` is routed
into the excluding-bootstraps view and never appended to the
bootstrap-commits list, whatever the classifier says: every
bootstraps-only accumulator is unchanged and the excluding-view totals
absorb the commit. -/
theorem claim_C10_bootstrap_exclude_routing (p : ParseParams) (st : PState)
    (h1 : st.cur.sha ≠ "") (h2 : st.cur.sha ∉ p.exclude_commits)
    (h3 : st.cur.sha ∈ p.bootstrap_exclude_shas) :
    (applyCommit p st).acc.stats_boot = st.acc.stats_boot ∧
    (applyCommit p st).acc.weekly_boot = st.acc.weekly_boot ∧
    (applyCommit p st).acc.weekly_tech_boot = st.acc.weekly_tech_boot ∧
    (applyCommit p st).acc.me_weekly_boot = st.acc.me_weekly_boot ∧
    (applyCommit p st).acc.me_weekly_tech_boot = st.acc.me_weekly_tech_boot ∧
    (applyCommit p st).acc.authors_boot = st.acc.authors_boot ∧
    (applyCommit p st).acc.languages_boot = st.acc.languages_boot ∧
    (applyCommit p st).acc.dirs_boot = st.acc.dirs_boot ∧
    (applyCommit p st).acc.me_monthly_boot = st.acc.me_monthly_boot ∧
    (applyCommit p st).acc.me_monthly_tech_boot = st.acc.me_monthly_tech_boot ∧
    (applyCommit p st).acc.bootstrap_commits = st.acc.bootstrap_commits ∧
    (applyCommit p st).acc.stats_excl.commits_total = st.acc.stats_excl.commits_total + 1 ∧
    (applyCommit p st).acc.stats_excl.insertions_total =
      st.acc.stats_excl.insertions_total + st.cur.insertions ∧
    (applyCommit p st).acc.stats_excl.deletions_total =
      st.acc.stats_excl.deletions_total + st.cur.deletions := by
  simp only [applyCommit]
  rw [if_neg h1, if_neg h2]
  simp only [decide_eq_true h3, Bool.not_true, Bool.and_false]
  simp

/-- C10 (witness): the routing theorem at a concrete commit listed in
`bootstrap_exclude_shas`. -/
theorem claim_C10_witness :
    (("abc" : String) ≠ "" ∧ ("abc" : String) ∉ ([] : List String) ∧
      ("abc" : String) ∈ ["abc"]) ∧
    ((applyCommit
        { me := { emails := [], names := [] }, bootstrap := {},
          bootstrap_exclude_shas := ["abc"] }
        { acc := {},
          cur := { sha := "abc", commit_iso := "2025-02-10T12:00:00Z",
                   insertions := 3, deletions := 1, files_touched := 1,
                   langs := [("Python", 3, 1)], dirs := [("(root)", 3, 1)] } }).acc.stats_boot =
      ({} : Acc).stats_boot ∧
    (applyCommit
        { me := { emails := [], names := [] }, bootstrap := {},
          bootstrap_exclude_shas := ["abc"] }
        { acc := {},
          cur := { sha := "abc", commit_iso := "2025-02-10T12:00:00Z",
                   insertions := 3, deletions := 1, files_touched := 1,
                   langs := [("Python", 3, 1)], dirs := [("(root)", 3, 1)] } }).acc.bootstrap_commits =
      ({} : Acc).bootstrap_commits ∧
    (applyCommit
        { me := { emails := [], names := [] }, bootstrap := {},
          bootstrap_exclude_shas := ["abc"] }
        { acc := {},
          cur := { sha := "abc", commit_iso := "2025-02-10T12:00:00Z",
                   insertions := 3, deletions := 1, files_touched := 1,
                   langs := [("Python", 3, 1)], dirs := [("(root)", 3, 1)] } }).acc.stats_excl.commits_total =
      ({} : Acc).stats_excl.commits_total + 1) :=
  ⟨⟨by decide, by decide, by decide⟩,
    let h := claim_C10_bootstrap_exclude_routing
      { me := { emails := [], names := [] }, bootstrap := {},
        bootstrap_exclude_shas := ["abc"] }
      { acc := {},
        cur := { sha := "abc", commit_iso := "2025-02-10T12:00:00Z",
                 insertions := 3, deletions := 1, files_touched := 1,
                 langs := [("Python", 3, 1)], dirs := [("(root)", 3, 1)] } }
      (by decide) (by decide) (by decide)
    ⟨h.1, h.2.2.2.2.2.2.2.2.2.2.1, h.2.2.2.2.2.2.2.2.2.2.2.1⟩⟩

/-- C9 (counterexample): a GitHub no-reply-shaped address on a host
other than `github.com` whose extracted, normalized username is in the
configured GitHub-username set does not match: the matcher's extractor
only accepts `users.noreply.github.com`. -/
theorem claim_C9_counterexample :
    MeMatcher.matches ⟨[], [], [], [], ["alice"]⟩ "" "alice@users.noreply.gitlab.com" = false ∧
    github_username_from_email "alice@users.noreply.gitlab.com" = "" := by
  constructor <;> decide

/-- C9 (amended): for the host `users.noreply.github.com`, the matcher
returns true whenever the extracted, normalized username is nonempty and
belongs to the configured GitHub-username set. -/
theorem claim_C9_noreply_github_amended (m : MeMatcher) (author_name author_email : String)
    (hend : strEndsWith (normalize_email author_email) "@users.noreply.github.com" = true)
    (hgh : github_username_from_email (normalize_email author_email) ≠ "")
    (hmem : github_username_from_email (normalize_email author_email) ∈ m.github_usernames) :
    m.matches author_name author_email = true := by
  have hne : normalize_email author_email ≠ "" := by
    intro h
    rw [h] at hend
    exact absurd hend (by decide)
  simp [MeMatcher.matches, hne]
  exact Or.inr (Or.inr (Or.inl ⟨hgh, hmem⟩))

/-- C9 (witness): the amended matcher theorem at a concrete no-reply
address. -/
theorem claim_C9_witness :
    (strEndsWith (normalize_email " 123+Alice@users.noreply.GitHub.com ")
        "@users.noreply.github.com" = true ∧
      github_username_from_email (normalize_email " 123+Alice@users.noreply.GitHub.com ") ≠ "" ∧
      github_username_from_email (normalize_email " 123+Alice@users.noreply.GitHub.com ") ∈
        ["alice"]) ∧
    MeMatcher.matches ⟨[], [], [], [], ["alice"]⟩ "N" " 123+Alice@users.noreply.GitHub.com " = true :=
  ⟨⟨by decide, by decide, by decide⟩,
    claim_C9_noreply_github_amended ⟨[], [], [], [], ["alice"]⟩ "N"
      " 123+Alice@users.noreply.GitHub.com " (by decide) (by decide) (by decide)⟩

/-- C7 (counterexample): the claim says a commit with an unparsable
author timestamp is omitted from the weekly buckets only, with the
monthly buckets still updated for an operator commit.  For the
unparsable timestamp `"bad timestamp"` (whose first seven characters
are not month-shaped) an operator commit is applied — `commits_me`
increments — yet the monthly and monthly-by-language buckets stay
empty, not only the weekly ones. -/
theorem claim_C7_counterexample :
    week_start_iso "bad timestamp" = "" ∧
    (parse_numstat_stream
        { me := { emails := ["me@x.com"], names := [] }, bootstrap := {} }
        ["@@@abc\tMe\tme@x.com\tbad timestamp\tsubj", "4\t1\tf.py"]).stats_excl.commits_me = 1 ∧
    (parse_numstat_stream
        { me := { emails := ["me@x.com"], names := [] }, bootstrap := {} }
        ["@@@abc\tMe\tme@x.com\tbad timestamp\tsubj", "4\t1\tf.py"]).weekly_excl = [] ∧
    (parse_numstat_stream
        { me := { emails := ["me@x.com"], names := [] }, bootstrap := {} }
        ["@@@abc\tMe\tme@x.com\tbad timestamp\tsubj", "4\t1\tf.py"]).me_monthly_excl = [] ∧
    (parse_numstat_stream
        { me := { emails := ["me@x.com"], names := [] }, bootstrap := {} }
        ["@@@abc\tMe\tme@x.com\tbad timestamp\tsubj", "4\t1\tf.py"]).me_monthly_tech_excl = [] := by
  refine ⟨by decide, by decide, by decide, by decide, by decide⟩

set_option maxHeartbeats 1000000 in
/-- C7 (amended): applying a commit whose timestamp fails weekly parsing
still updates the period totals, the language and directory breakdowns
and the author totals, and omits it from every weekly bucket; the
monthly and monthly-by-language buckets are keyed by the timestamp's
first seven characters and are therefore updated (for an operator
commit) exactly when that prefix is month-shaped — which some
unparsable timestamps fail. -/
theorem claim_C7_unparsable_timestamp_amended (p : ParseParams) (st : PState)
    (h1 : st.cur.sha ≠ "") (h2 : st.cur.sha ∉ p.exclude_commits)
    (hwk : week_start_iso st.cur.commit_iso = "") :
    ((applyCommit p st).acc.weekly_excl = st.acc.weekly_excl ∧
     (applyCommit p st).acc.weekly_boot = st.acc.weekly_boot ∧
     (applyCommit p st).acc.weekly_tech_excl = st.acc.weekly_tech_excl ∧
     (applyCommit p st).acc.weekly_tech_boot = st.acc.weekly_tech_boot ∧
     (applyCommit p st).acc.me_weekly_excl = st.acc.me_weekly_excl ∧
     (applyCommit p st).acc.me_weekly_boot = st.acc.me_weekly_boot ∧
     (applyCommit p st).acc.me_weekly_tech_excl = st.acc.me_weekly_tech_excl ∧
     (applyCommit p st).acc.me_weekly_tech_boot = st.acc.me_weekly_tech_boot) ∧
    ((applyCommit p st).acc.stats_excl.commits_total +
        (applyCommit p st).acc.stats_boot.commits_total =
      st.acc.stats_excl.commits_total + st.acc.stats_boot.commits_total + 1) ∧
    (sumVals (applyCommit p st).acc.languages_excl +
        sumVals (applyCommit p st).acc.languages_boot =
      sumVals st.acc.languages_excl + sumVals st.acc.languages_boot +
        langStatOf st.cur.is_me (sumVals st.cur.langs)) ∧
    (sumVals (applyCommit p st).acc.dirs_excl +
        sumVals (applyCommit p st).acc.dirs_boot =
      sumVals st.acc.dirs_excl + sumVals st.acc.dirs_boot +
        langStatOf st.cur.is_me (sumVals st.cur.dirs)) ∧
    (authorCommitsSum (applyCommit p st).acc.authors_excl +
        authorCommitsSum (applyCommit p st).acc.authors_boot =
      authorCommitsSum st.acc.authors_excl + authorCommitsSum st.acc.authors_boot +
        (if (if st.cur.author_email ≠ "" then normalize_email st.cur.author_email else "") ≠ ""
         then 1 else 0)) ∧
    (monthKeyOf st.cur.commit_iso = "" →
      (applyCommit p st).acc.me_monthly_excl = st.acc.me_monthly_excl ∧
      (applyCommit p st).acc.me_monthly_boot = st.acc.me_monthly_boot ∧
      (applyCommit p st).acc.me_monthly_tech_excl = st.acc.me_monthly_tech_excl ∧
      (applyCommit p st).acc.me_monthly_tech_boot = st.acc.me_monthly_tech_boot) ∧
    (st.cur.is_me = true → monthKeyOf st.cur.commit_iso ≠ "" →
      get0 (applyCommit p st).acc.me_monthly_excl (monthKeyOf st.cur.commit_iso) +
        get0 (applyCommit p st).acc.me_monthly_boot (monthKeyOf st.cur.commit_iso) =
      get0 st.acc.me_monthly_excl (monthKeyOf st.cur.commit_iso) +
        get0 st.acc.me_monthly_boot (monthKeyOf st.cur.commit_iso) +
        ⟨1, st.cur.insertions, st.cur.deletions⟩) := by
  simp only [applyCommit]
  rw [if_neg h1, if_neg h2]
  cases hB : (p.bootstrap.is_bootstrap st.cur.insertions st.cur.deletions
      st.cur.files_touched && !(decide (st.cur.sha ∈ p.bootstrap_exclude_shas))) with
  | false =>
    refine ⟨?_, ?_, ?_, ?_, ?_, ?_, ?_⟩
    · simp [hwk]
    · simp
      omega
    · simp only [Bool.false_eq_true, if_false, reduceIte]
      rw [sumVals_mergeAdd, sumVals_map_langStatOf]
      abel
    · simp only [Bool.false_eq_true, if_false, reduceIte]
      rw [sumVals_mergeAdd, sumVals_map_langStatOf]
      abel
    · simp only [Bool.false_eq_true, if_false, reduceIte]
      by_cases hek : (if st.cur.author_email ≠ "" then normalize_email st.cur.author_email
          else "") ≠ ""
      · rw [if_pos hek, if_pos hek, authorCommitsSum_bump]
        omega
      · rw [if_neg hek, if_neg hek]
        omega
    · intro hmk
      simp [hmk]
    · intro hme hmk
      simp only [Bool.false_eq_true, if_false, reduceIte, hme, hmk, ne_eq,
        not_false_iff, and_true, true_and, if_true, not_true, if_neg]
      rw [get0_bumpAdd]
      simp only [if_pos rfl]
      abel
  | true =>
    refine ⟨?_, ?_, ?_, ?_, ?_, ?_, ?_⟩
    · simp [hwk]
    · simp
      omega
    · simp only [if_true]
      rw [sumVals_mergeAdd, sumVals_map_langStatOf]
      abel
    · simp only [if_true]
      rw [sumVals_mergeAdd, sumVals_map_langStatOf]
      abel
    · simp only [if_true]
      by_cases hek : (if st.cur.author_email ≠ "" then normalize_email st.cur.author_email
          else "") ≠ ""
      · rw [if_pos hek, if_pos hek, authorCommitsSum_bump]
        omega
      · rw [if_neg hek, if_neg hek]
        omega
    · intro hmk
      simp [hmk]
    · intro hme hmk
      simp only [if_true, hme, hmk, ne_eq, not_false_iff, and_true, true_and]
      rw [get0_bumpAdd]
      simp only [if_pos rfl]
      abel

/-- C7 (witness): the amended theorem at a concrete operator commit
with the unparsable, non-month-shaped timestamp `"bad timestamp"`. -/
theorem claim_C7_witness :
    (("abc" : String) ≠ "" ∧ ("abc" : String) ∉ ([] : List String) ∧
      week_start_iso "bad timestamp" = "") ∧
    ((applyCommit
        { me := { emails := [], names := [] }, bootstrap := {} }
        { acc := {},
          cur := { sha := "abc", commit_iso := "bad timestamp", is_me := true,
                   insertions := 4, deletions := 1, files_touched := 1,
                   langs := [("Python", 4, 1)], dirs := [("(root)", 4, 1)] } }).acc.weekly_excl =
      ({} : Acc).weekly_excl ∧
    (applyCommit
        { me := { emails := [], names := [] }, bootstrap := {} }
        { acc := {},
          cur := { sha := "abc", commit_iso := "bad timestamp", is_me := true,
                   insertions := 4, deletions := 1, files_touched := 1,
                   langs := [("Python", 4, 1)], dirs := [("(root)", 4, 1)] } }).acc.weekly_boot =
      ({} : Acc).weekly_boot) :=
  ⟨⟨by decide, by decide, by decide⟩,
    let h := claim_C7_unparsable_timestamp_amended
      { me := { emails := [], names := [] }, bootstrap := {} }
      { acc := {},
        cur := { sha := "abc", commit_iso := "bad timestamp", is_me := true,
                 insertions := 4, deletions := 1, files_touched := 1,
                 langs := [("Python", 4, 1)], dirs := [("(root)", 4, 1)] } }
      (by decide) (by decide) (by decide)
    ⟨h.1.1, h.1.2.1⟩⟩

end GitAnalysis

open GitAnalysis

theorem lookup?_bumpWith {V : Type} (m : List (String × V)) (k : String) (f : V → V)
    (d : V) (q : String) :
    lookup? (bumpWith m k f d) q =
      if k = q then some (f ((lookup? m k).getD d)) else lookup? m q := by
  induction m with
  | nil =>
    simp only [bumpWith, lookup?]
    by_cases h : k = q <;> simp [h]
  | cons kv rest ih =>
    simp only [bumpWith]
    by_cases h1 : kv.1 = k
    · subst h1
      simp only [if_pos rfl, lookup?]
      by_cases h2 : kv.1 = q <;> simp [h2]
    · rw [if_neg h1]
      simp only [lookup?]
      by_cases h2 : kv.1 = q
      · have hkq : ¬ k = q := fun h => h1 (h2.trans h.symm) |>.elim
        simp [h2, hkq, if_neg h1]
      · simp [h2, ih, if_neg h1]

theorem lookup?_mapVals {V W : Type} (f : V → W) (m : List (String × V)) (k : String) :
    lookup? (mapVals f m) k = (lookup? m k).map f := by
  induction m with
  | nil => simp [mapVals, lookup?]
  | cons kv rest ih =>
    simp only [mapVals, List.map_cons, lookup?] at *
    by_cases h : kv.1 = k <;> simp [h, ih]

theorem get0_mapVals {V W : Type} [Zero V] [Zero W] (f : V → W) (hf : f 0 = 0)
    (m : List (String × V)) (k : String) :
    get0 (mapVals f m) k = f (get0 m k) := by
  simp only [get0, lookup?_mapVals]
  cases lookup? m k <;> simp [hf]

theorem deriveLang_zero : deriveLang 0 = 0 := by decide

theorem deriveLang_add (a b : LangStat) : deriveLang (a + b) = deriveLang a + deriveLang b := by
  cases a; cases b
  show deriveLang (LangStat.add _ _) = LangOut.add (deriveLang _) (deriveLang _)
  simp only [deriveLang, LangStat.add, LangOut.add, LangOut.mk.injEq, true_and, and_true]
  omega

theorem deriveWeek_zero : deriveWeek 0 = 0 := by decide

theorem deriveWeek_add (a b : WeekStat) : deriveWeek (a + b) = deriveWeek a + deriveWeek b := by
  cases a; cases b
  show deriveWeek (WeekStat.add _ _) = WeekOut.add (deriveWeek _) (deriveWeek _)
  simp only [deriveWeek, WeekStat.add, WeekOut.add, WeekOut.mk.injEq, true_and, and_true]
  omega

theorem get0_aggMerge {V : Type} [AddCommMonoid V] (getE getB : RepoResult → List (String × V))
    (rs : List RepoResult) (incl onlyB : Bool) (k : String) :
    get0 (aggMerge getE getB rs incl onlyB) k =
      (rs.map (fun r =>
        if onlyB then keySum (getB r) k
        else keySum (getE r) k + (if incl then keySum (getB r) k else 0))).sum := by
  suffices h : ∀ agg : List (String × V),
      get0 (List.foldl
        (fun agg r =>
          if onlyB then mergeAdd agg (getB r)
          else
            let agg2 := mergeAdd agg (getE r)
            if incl then mergeAdd agg2 (getB r) else agg2)
        agg rs) k =
      get0 agg k + (rs.map (fun r =>
        if onlyB then keySum (getB r) k
        else keySum (getE r) k + (if incl then keySum (getB r) k else 0))).sum by
    have := h []
    simpa [aggMerge] using this
  induction rs with
  | nil => intro agg; simp
  | cons r rest ih =>
    intro agg
    simp only [List.foldl_cons, List.map_cons, List.sum_cons]
    rw [ih]
    cases onlyB with
    | true =>
      simp only [if_true]
      rw [get0_mergeAdd]
      abel
    | false =>
      simp only [Bool.false_eq_true, if_false]
      cases incl with
      | true =>
        simp only [if_true]
        rw [get0_mergeAdd, get0_mergeAdd]
        abel
      | false =>
        simp only [Bool.false_eq_true, if_false]
        rw [get0_mergeAdd]
        abel

theorem sum_map_add_split {V : Type} [AddCommMonoid V] {R : Type} (f g : R → V) (rs : List R) :
    (rs.map (fun r => f r + g r)).sum = (rs.map f).sum + (rs.map g).sum := by
  induction rs with
  | nil => simp
  | cons r rest ih =>
    simp only [List.map_cons, List.sum_cons, ih]
    abel

theorem aggMerge_comp {V : Type} [AddCommMonoid V] (getE getB : RepoResult → List (String × V))
    (rs : List RepoResult) (k : String) :
    get0 (aggMerge getE getB rs true false) k =
      get0 (aggMerge getE getB rs false false) k + get0 (aggMerge getE getB rs false true) k := by
  rw [get0_aggMerge, get0_aggMerge, get0_aggMerge]
  simp only [Bool.false_eq_true, if_false, if_true, add_zero]
  exact sum_map_add_split (fun r => keySum (getE r) k) (fun r => keySum (getB r) k) rs

@[simp] theorem keySumTech_nil (mo te : String) : keySumTech [] mo te = 0 := rfl

@[simp] theorem keySumTech_cons (kv : String × List (String × WeekStat))
    (rest : List (String × List (String × WeekStat))) (mo te : String) :
    keySumTech (kv :: rest) mo te =
      (if kv.1 = mo then keySum kv.2 te else 0) + keySumTech rest mo te := by
  simp only [keySumTech, List.filter_cons]
  by_cases h : kv.1 = mo <;> simp [h]

theorem get20_bumpMerge (m : List (String × List (String × WeekStat))) (k0 : String)
    (src : List (String × WeekStat)) (mo te : String) :
    get20 (bumpWith m k0 (fun inner => mergeAdd inner src) []) mo te =
      get20 m mo te + (if k0 = mo then keySum src te else 0) := by
  simp only [get20, getL, lookupD, lookup?_bumpWith]
  by_cases h : k0 = mo
  · subst h
    simp only [if_pos rfl, Option.getD_some]
    cases lookup? m k0 <;> simp [get0_mergeAdd]
  · simp [h]

theorem get20_mergeTech (src dst : List (String × List (String × WeekStat))) (mo te : String) :
    get20 (merge_me_monthly_tech dst src) mo te = get20 dst mo te + keySumTech src mo te := by
  induction src generalizing dst with
  | nil => simp [merge_me_monthly_tech]
  | cons kv rest ih =>
    simp only [merge_me_monthly_tech, List.foldl_cons, keySumTech_cons] at *
    rw [ih, get20_bumpMerge]
    by_cases h : kv.1 = mo <;> simp [h, add_assoc, add_comm, add_left_comm]

theorem authNums_lookupD_bump (dst : List (String × AuthorStats)) (k0 : String)
    (st : AuthorStats) (k : String) :
    authNums (lookupD (bumpWith dst k0
      (fun cur =>
        { name := if cur.name = "" ∧ st.name ≠ "" then st.name else cur.name,
          email := if cur.email = "" ∧ st.email ≠ "" then st.email else cur.email,
          commits := cur.commits + st.commits,
          insertions := cur.insertions + st.insertions,
          deletions := cur.deletions + st.deletions })
      ⟨st.name, st.email, 0, 0, 0⟩) k {}) =
      authNums (lookupD dst k {}) + (if k0 = k then authNums st else 0) := by
  simp only [lookupD, lookup?_bumpWith]
  by_cases h : k0 = k
  · subst h
    simp only [if_pos rfl, Option.getD_some]
    cases lookup? dst k0 with
    | none => simp [authNums, WeekStat_add_def, WeekStat.add, WeekStat_zero_def]
    | some x => simp [authNums, WeekStat_add_def, WeekStat.add]
  · simp [h]

theorem authNums_merge_author_stats (src dst : List (String × AuthorStats)) (k : String) :
    authNums (lookupD (merge_author_stats dst src) k {}) =
      authNums (lookupD dst k {}) + keySum (mapVals authNums src) k := by
  induction src generalizing dst with
  | nil => simp [merge_author_stats, mapVals]
  | cons kv rest ih =>
    simp only [merge_author_stats, List.foldl_cons, mapVals, List.map_cons, keySum_cons] at *
    rw [ih, authNums_lookupD_bump]
    by_cases h : kv.1 = k <;> simp [h, add_assoc, add_comm, add_left_comm]

theorem get20_mapVals (f : WeekStat → WeekOut) (hf : f 0 = 0)
    (m : List (String × List (String × WeekStat))) (mo te : String) :
    get20 (mapVals (mapVals f) m) mo te = f (get20 m mo te) := by
  simp only [get20, getL, lookupD, lookup?_mapVals]
  cases lookup? m mo with
  | none => simp [get0, lookup?, hf, mapVals]
  | some inner => simp [get0_mapVals f hf]

theorem get20_techAggFold (getE getB : RepoResult → List (String × List (String × WeekStat)))
    (rs : List RepoResult) (incl onlyB : Bool) (mo te : String) :
    get20 (rs.foldl
      (fun agg r =>
        if onlyB then merge_me_monthly_tech agg (getB r)
        else
          let agg2 := merge_me_monthly_tech agg (getE r)
          if incl then merge_me_monthly_tech agg2 (getB r) else agg2) []) mo te =
      (rs.map (fun r =>
        if onlyB then keySumTech (getB r) mo te
        else keySumTech (getE r) mo te + (if incl then keySumTech (getB r) mo te else 0))).sum := by
  suffices h : ∀ agg : List (String × List (String × WeekStat)),
      get20 (rs.foldl
        (fun agg r =>
          if onlyB then merge_me_monthly_tech agg (getB r)
          else
            let agg2 := merge_me_monthly_tech agg (getE r)
            if incl then merge_me_monthly_tech agg2 (getB r) else agg2) agg) mo te =
      get20 agg mo te + (rs.map (fun r =>
        if onlyB then keySumTech (getB r) mo te
        else keySumTech (getE r) mo te + (if incl then keySumTech (getB r) mo te else 0))).sum by
    have := h []
    simpa [get20, getL, lookupD, lookup?, get0] using this
  induction rs with
  | nil => intro agg; simp
  | cons r rest ih =>
    intro agg
    simp only [List.foldl_cons, List.map_cons, List.sum_cons]
    rw [ih]
    cases onlyB with
    | true =>
      simp only [if_true]
      rw [get20_mergeTech]
      abel
    | false =>
      simp only [Bool.false_eq_true, if_false]
      cases incl with
      | true =>
        simp only [if_true]
        rw [get20_mergeTech, get20_mergeTech]
        abel
      | false =>
        simp only [Bool.false_eq_true, if_false]
        rw [get20_mergeTech]
        abel

theorem authAggFold_closed (getE getB : RepoResult → List (String × AuthorStats))
    (rs : List RepoResult) (incl onlyB : Bool) (k : String) :
    authNums (lookupD (rs.foldl
      (fun agg r =>
        if onlyB then merge_author_stats agg (getB r)
        else
          let agg2 := merge_author_stats agg (getE r)
          if incl then merge_author_stats agg2 (getB r) else agg2) []) k {}) =
      (rs.map (fun r =>
        if onlyB then keySum (mapVals authNums (getB r)) k
        else keySum (mapVals authNums (getE r)) k +
          (if incl then keySum (mapVals authNums (getB r)) k else 0))).sum := by
  suffices h : ∀ agg : List (String × AuthorStats),
      authNums (lookupD (rs.foldl
        (fun agg r =>
          if onlyB then merge_author_stats agg (getB r)
          else
            let agg2 := merge_author_stats agg (getE r)
            if incl then merge_author_stats agg2 (getB r) else agg2) agg) k {}) =
      authNums (lookupD agg k {}) + (rs.map (fun r =>
        if onlyB then keySum (mapVals authNums (getB r)) k
        else keySum (mapVals authNums (getE r)) k +
          (if incl then keySum (mapVals authNums (getB r)) k else 0))).sum by
    have hz : authNums (lookupD ([] : List (String × AuthorStats)) k {}) = 0 := by
      simp [lookupD, lookup?, authNums, WeekStat_zero_def]
    rw [h [], hz, zero_add]
  induction rs with
  | nil => intro agg; simp
  | cons r rest ih =>
    intro agg
    simp only [List.foldl_cons, List.map_cons, List.sum_cons]
    rw [ih]
    cases onlyB with
    | true =>
      simp only [if_true]
      rw [authNums_merge_author_stats]
      abel
    | false =>
      simp only [Bool.false_eq_true, if_false]
      cases incl with
      | true =>
        simp only [if_true]
        rw [authNums_merge_author_stats, authNums_merge_author_stats]
        abel
      | false =>
        simp only [Bool.false_eq_true, if_false]
        rw [authNums_merge_author_stats]
        abel

theorem aggregate_period_total_comp (rs : List RepoResult) (label : String) :
    aggregate_period_total rs label true =
      RepoYearStats.add (aggregate_period_total rs label false)
        (aggregate_period_total rs label false true) := by
  simp only [aggregate_period_total, Bool.false_eq_true, if_false, if_true]
  suffices h : ∀ tI tE tB : RepoYearStats, tI = RepoYearStats.add tE tB →
      rs.foldl (fun total r => RepoYearStats.add total (repo_period_stats r label true)) tI =
      RepoYearStats.add
        (rs.foldl (fun total r => RepoYearStats.add total (repo_period_stats r label false)) tE)
        (rs.foldl (fun total r =>
          RepoYearStats.add total (lookupD r.period_stats_bootstraps label {})) tB) by
    exact h {} {} {} (by decide)
  induction rs with
  | nil => intro tI tE tB h; simpa using h
  | cons r rest ih =>
    intro tI tE tB h
    simp only [List.foldl_cons]
    apply ih
    subst h
    have hr : repo_period_stats r label true =
        RepoYearStats.add (repo_period_stats r label false)
          (lookupD r.period_stats_bootstraps label {}) := by
      simp [repo_period_stats, add_repo_year_stats]
    rw [hr]
    simp only [← RepoYearStats_add_def]
    abel

theorem aggregate_weekly_comp (rs : List RepoResult) (label k : String) :
    get0 (aggregate_weekly rs label true) k =
      get0 (aggregate_weekly rs label false) k +
      get0 (aggregate_weekly rs label false true) k := by
  simp only [aggregate_weekly]
  rw [get0_mapVals deriveWeek deriveWeek_zero, get0_mapVals deriveWeek deriveWeek_zero,
    get0_mapVals deriveWeek deriveWeek_zero, aggMerge_comp, deriveWeek_add]

theorem aggregate_me_monthly_comp (rs : List RepoResult) (label k : String) :
    get0 (aggregate_me_monthly rs label true) k =
      get0 (aggregate_me_monthly rs label false) k +
      get0 (aggregate_me_monthly rs label false true) k := by
  simp only [aggregate_me_monthly]
  rw [get0_mapVals deriveWeek deriveWeek_zero, get0_mapVals deriveWeek deriveWeek_zero,
    get0_mapVals deriveWeek deriveWeek_zero, aggMerge_comp, deriveWeek_add]

theorem aggregate_languages_comp (rs : List RepoResult) (label k : String) :
    get0 (aggregate_languages rs label true) k =
      get0 (aggregate_languages rs label false) k +
      get0 (aggregate_languages rs label false true) k := by
  simp only [aggregate_languages]
  rw [get0_mapVals deriveLang deriveLang_zero, get0_mapVals deriveLang deriveLang_zero,
    get0_mapVals deriveLang deriveLang_zero, aggMerge_comp, deriveLang_add]

theorem aggregate_dirs_comp (rs : List RepoResult) (label k : String) :
    get0 (aggregate_dirs rs label true) k =
      get0 (aggregate_dirs rs label false) k +
      get0 (aggregate_dirs rs label false true) k := by
  simp only [aggregate_dirs]
  rw [get0_mapVals deriveLang deriveLang_zero, get0_mapVals deriveLang deriveLang_zero,
    get0_mapVals deriveLang deriveLang_zero, aggMerge_comp, deriveLang_add]

theorem get20_techFold_both (E B : RepoResult → List (String × List (String × WeekStat)))
    (rs : List RepoResult) (mo te : String) :
    get20 (rs.foldl (fun agg r =>
      merge_me_monthly_tech (merge_me_monthly_tech agg (E r)) (B r)) []) mo te =
    (rs.map (fun r => keySumTech (E r) mo te + keySumTech (B r) mo te)).sum := by
  have h := get20_techAggFold E B rs true false mo te
  simpa only [Bool.false_eq_true, if_false, if_true] using h

theorem get20_techFold_single (E : RepoResult → List (String × List (String × WeekStat)))
    (rs : List RepoResult) (mo te : String) :
    get20 (rs.foldl (fun agg r => merge_me_monthly_tech agg (E r)) []) mo te =
    (rs.map (fun r => keySumTech (E r) mo te)).sum := by
  have h := get20_techAggFold E E rs false true mo te
  simpa only [Bool.false_eq_true, if_false, if_true] using h

theorem aggregate_me_monthly_tech_comp (rs : List RepoResult) (label mo te : String) :
    get20 (aggregate_me_monthly_tech rs label true) mo te =
      get20 (aggregate_me_monthly_tech rs label false) mo te +
      get20 (aggregate_me_monthly_tech rs label false true) mo te := by
  simp only [aggregate_me_monthly_tech, Bool.false_eq_true, if_false, if_true]
  rw [get20_mapVals deriveWeek deriveWeek_zero, get20_mapVals deriveWeek deriveWeek_zero,
    get20_mapVals deriveWeek deriveWeek_zero]
  rw [get20_techFold_both, get20_techFold_single, get20_techFold_single]
  rw [sum_map_add_split, deriveWeek_add]

theorem authFold_both (E B : RepoResult → List (String × AuthorStats))
    (rs : List RepoResult) (k : String) :
    authNums (lookupD (rs.foldl (fun agg r =>
      merge_author_stats (merge_author_stats agg (E r)) (B r)) []) k {}) =
    (rs.map (fun r =>
      keySum (mapVals authNums (E r)) k + keySum (mapVals authNums (B r)) k)).sum := by
  have h := authAggFold_closed E B rs true false k
  simpa only [Bool.false_eq_true, if_false, if_true] using h

theorem authFold_single (E : RepoResult → List (String × AuthorStats))
    (rs : List RepoResult) (k : String) :
    authNums (lookupD (rs.foldl (fun agg r => merge_author_stats agg (E r)) []) k {}) =
    (rs.map (fun r => keySum (mapVals authNums (E r)) k)).sum := by
  have h := authAggFold_closed E E rs false true k
  simpa only [Bool.false_eq_true, if_false, if_true] using h

theorem aggregate_authors_comp (rs : List RepoResult) (label k : String) :
    authNums (lookupD (aggregate_authors rs label true) k {}) =
      authNums (lookupD (aggregate_authors rs label false) k {}) +
      authNums (lookupD (aggregate_authors rs label false true) k {}) := by
  simp only [aggregate_authors, Bool.false_eq_true, if_false, if_true]
  rw [authFold_both, authFold_single, authFold_single]
  rw [sum_map_add_split]

/-- C4: for every list of repository results, every period label and
every rollup key, the "including bootstraps" aggregate equals the
excluding-bootstraps aggregate plus the bootstraps-only aggregate at
that key: for the period totals (`aggregate_period`'s `total`), the
weekly buckets, the monthly buckets, the monthly-by-language buckets,
the author totals (numeric fields), and the language and directory
breakdowns. -/
theorem claim_C4_composition :
    ∀ (rs : List RepoResult) (label k mo te : String),
      aggregate_period_total rs label true =
        RepoYearStats.add (aggregate_period_total rs label false)
          (aggregate_period_total rs label false true) ∧
      get0 (aggregate_weekly rs label true) k =
        get0 (aggregate_weekly rs label false) k +
        get0 (aggregate_weekly rs label false true) k ∧
      get0 (aggregate_me_monthly rs label true) k =
        get0 (aggregate_me_monthly rs label false) k +
        get0 (aggregate_me_monthly rs label false true) k ∧
      get20 (aggregate_me_monthly_tech rs label true) mo te =
        get20 (aggregate_me_monthly_tech rs label false) mo te +
        get20 (aggregate_me_monthly_tech rs label false true) mo te ∧
      authNums (lookupD (aggregate_authors rs label true) k {}) =
        authNums (lookupD (aggregate_authors rs label false) k {}) +
        authNums (lookupD (aggregate_authors rs label false true) k {}) ∧
      get0 (aggregate_languages rs label true) k =
        get0 (aggregate_languages rs label false) k +
        get0 (aggregate_languages rs label false true) k ∧
      get0 (aggregate_dirs rs label true) k =
        get0 (aggregate_dirs rs label false) k +
        get0 (aggregate_dirs rs label false true) k := by
  intro rs label k mo te
  exact ⟨aggregate_period_total_comp rs label, aggregate_weekly_comp rs label k,
    aggregate_me_monthly_comp rs label k, aggregate_me_monthly_tech_comp rs label mo te,
    aggregate_authors_comp rs label k, aggregate_languages_comp rs label k,
    aggregate_dirs_comp rs label k⟩
